import Mathlib

/-!
Replay system Blueprint library: a shallow embedding of
`UReplaySystemBPLibrary`
(`Source/ReplaySystem/Public/ReplaySystemBPLibrary.h`,
`Source/ReplaySystem/Private/ReplaySystemBPLibrary.cpp`).

The library is glue over the host engine.  The functions of the library are
translated from their C++ bodies.  The engine services the codec thunks call
(the JSON converter, the `FString` archive operator, the JSON object wrapper)
are not part of the repository: the thunks are written over an arbitrary
`Engine` record holding those services.  What the thunks do on their own is
proved for every engine.  What depends on the services is proved on
`specEngine`, one concrete engine written from the codec specification.

Layout: the data model, the engine interface, the library functions, the
replay queries, the specification engine, then the theorems.
-/

namespace UReplaySystemBPLibrary

/-! ## Data model -/

/-- An 8-bit value (`uint8`), the element type of a byte buffer. -/
abbrev uint8 := Fin 256

/-- The engine's dynamic array; only its element sequence matters here. -/
abbrev TArray (α : Type) := List α

/-- The engine's string type. -/
abbrev FString := String

/-- Single precision values are only copied by the functions below, never
computed with, so a rational stands for a `float`. -/
abbrev float := ℚ

/-- One reflected field of a record type: its name and its type (`FProperty`,
with the type left open so that a field type can hold the fields of a nested
record type). -/
structure FPropertyOf (T : Type) where
  Name : FString
  Kind : T

/-- The type of a reflected field.  Integers, texts, booleans, decimal
numbers, arrays of a mapped type and nested records of mapped types have a
mapping into the intermediate representation; `Unmapped` stands for every
field type that has none. -/
inductive EFieldType where
  | Integer
  | Text
  | Unmapped
  | Boolean
  | Decimal
  | Array (Element : EFieldType)
  | Struct (Properties : List (FPropertyOf EFieldType))

/-- One reflected field of a record type: its name and its type. -/
abbrev FProperty := FPropertyOf EFieldType

/-- The storage of one field of a record.  A decimal number is
`Mantissa / 10 ^ Scale`; an array holds its items, a nested record one stored
value per field. -/
inductive FieldValue where
  | Integer (v : Int)
  | Text (v : FString)
  | Raw (v : Nat)
  | Boolean (v : Bool)
  | Decimal (Mantissa : Int) (Scale : Nat)
  | Array (Items : List FieldValue)
  | Struct (Fields : List FieldValue)

/-- The reflection descriptor of a record type (`UStruct`, `Struct->Struct` in
the thunks): the fields in declaration order. -/
structure UStruct where
  Properties : List FProperty

/-- The struct property the Blueprint frame stepped over
(`CastField<FStructProperty>(Stack.MostRecentProperty)`); it carries the
descriptor of the record type. -/
structure FStructProperty where
  Struct : UStruct

/-- The memory of a record (`Stack.MostRecentPropertyAddress`): one stored
value per field, in the order of the descriptor. -/
abbrev StructMemory := List FieldValue

/-- A value of the intermediate representation: null, a boolean, the number
`Mantissa / 10 ^ Scale`, a text, an array of values, or an object of name to
value entries. -/
inductive FJsonValue where
  | Null
  | Boolean (v : Bool)
  | Number (Mantissa : Int) (Scale : Nat)
  | Text (v : FString)
  | Array (Items : List FJsonValue)
  | Object (Entries : List (FString × FJsonValue))

/-- An object of the intermediate representation: field name to value
entries, in text order. -/
abbrev FJsonObject := List (FString × FJsonValue)

/-- The engine's `FJsonObjectWrapper`; the thunk reads only its `JsonObject`. -/
structure FJsonObjectWrapper where
  JsonObject : FJsonObject

/-- The failures the codec specification names (section 7). -/
inductive ECodecError where
  | UnsupportedFieldType
  | MalformedInput
  | FieldNotFound
  deriving DecidableEq

/-- What the Blueprint caller of a thunk observes when the call returns:
the content of the by-reference parameter, and the failure surfaced to the
caller, if any.  Both thunks are `void`, write no result and raise no script
exception on any path, so every path below ends with `error := none`. -/
structure ThunkResult (α : Type) where
  out : α
  error : Option ECodecError
  deriving DecidableEq

/-! ## Engine interface -/

/-- The host engine services the codec functions call.  Each field is a
function of the engine, outside the repository.

* `UStructToJsonObjectString Struct Value Out` is
  `FJsonObjectConverter::UStructToJsonObjectString`: the success flag and the
  content of the out string `Out` after the call.
* `SaveFString Bytes Value` is `Ar << Value` on an `FMemoryWriter` over
  `Bytes`: the content of the array after the call.
* `LoadFString Bytes Value` is `Ar << Value` on an `FMemoryReader` over
  `Bytes`: the content of the string after the call.
* `MakeWrapper` is a default constructed `FJsonObjectWrapper`.
* `JsonObjectFromString Wrapper Text` is
  `FJsonObjectWrapper::JsonObjectFromString`: the success flag and the
  wrapper after the call.
* `JsonObjectToUStruct Object Struct Value` is
  `FJsonObjectConverter::JsonObjectToUStruct`: the success flag and the
  record memory after the call. -/
structure Engine where
  UStructToJsonObjectString : UStruct → StructMemory → FString → Bool × FString
  SaveFString : TArray uint8 → FString → TArray uint8
  LoadFString : TArray uint8 → FString → FString
  MakeWrapper : FJsonObjectWrapper
  JsonObjectFromString : FJsonObjectWrapper → FString → Bool × FJsonObjectWrapper
  JsonObjectToUStruct : FJsonObject → UStruct → StructMemory → Bool × StructMemory

/-! ## Codec functions of the library -/

/-- `UReplaySystemBPLibrary::StringToBytes`: a memory writer over an empty
array, the string streamed into it, the array returned. -/
def StringToBytes (E : Engine) (Data : FString) : TArray uint8 :=
  let Result : TArray uint8 := []
  E.SaveFString Result Data

/-- `UReplaySystemBPLibrary::BytesToString`: a memory reader over the bytes,
an empty string streamed out of it, the string returned.  The archive's error
state is not consulted. -/
def BytesToString (E : Engine) (Data : TArray uint8) : FString :=
  let Result : FString := ""
  E.LoadFString Data Result

/-- `UReplaySystemBPLibrary::SerializeStruct`, the native body behind the
custom thunk: it is empty, `Data` is returned as it came. -/
def SerializeStruct (_Struct : Option UStruct) (Data : TArray uint8) : TArray uint8 :=
  Data

/-- `UReplaySystemBPLibrary::DeSerializeStruct`, the native body behind the
custom thunk: it is empty, `Struct` is returned as it came. -/
def DeSerializeStruct (_Data : TArray uint8) (Struct : Option UStruct) : Option UStruct :=
  Struct

/-- `execSerializeStruct`.  `Struct` is the result of the `CastField`
(`none` for a null pointer), `StructValue` the record memory, `Data` the
content of the caller's by-reference buffer on entry.  The result holds the
content of the buffer on return. -/
def execSerializeStruct (E : Engine) (Struct : Option FStructProperty)
    (StructValue : StructMemory) (Data : TArray uint8) : ThunkResult (TArray uint8) :=
  match Struct with
  | none => { out := Data, error := none }
  | some Struct =>
    let asString : FString := ""
    let asString := (E.UStructToJsonObjectString Struct.Struct StructValue asString).2
    let Data := StringToBytes E asString
    { out := Data, error := none }

/-- `execDeSerializeStruct`.  `Data` is the by-value buffer, `Struct` the
result of the `CastField`, `StructValue` the destination record memory on
entry.  The result holds the record memory on return.  The flags returned by
`JsonObjectFromString` and `JsonObjectToUStruct` are discarded, as in the
source. -/
def execDeSerializeStruct (E : Engine) (Data : TArray uint8)
    (Struct : Option FStructProperty) (StructValue : StructMemory) :
    ThunkResult StructMemory :=
  match Struct with
  | none => { out := StructValue, error := none }
  | some Struct =>
    let JsonString := BytesToString E Data
    let Wrapper := E.MakeWrapper
    let Wrapper := (E.JsonObjectFromString Wrapper JsonString).2
    let StructValue := (E.JsonObjectToUStruct Wrapper.JsonObject Struct.Struct StructValue).2
    { out := StructValue, error := none }

/-! ## Replay queries of the library -/

/-- One `AddOrUpdateEvent` call as the demo driver receives it. -/
structure FReplayEventCall where
  EventId : FString
  Group : FString
  Metadata : FString
  Data : TArray uint8
  deriving DecidableEq

/-- A player state; only its identity matters here. -/
structure APlayerState where
  Id : Nat
  deriving DecidableEq

/-- The part of a player controller the library reads: its `PlayerState`
pointer (`none` for a null pointer). -/
structure APlayerController where
  PlayerState : Option APlayerState
  deriving DecidableEq

/-- The part of a net connection the library reads: its `PlayerController`
pointer (`none` for a null pointer). -/
structure UNetConnection where
  PlayerController : Option APlayerController
  deriving DecidableEq

/-- The part of the engine's demo net driver the library reads and writes:
the answers of `IsRecording()` and `IsPlaying()`, the accumulated record
time, the answer of `GetDemoTotalTime()`, the `AddOrUpdateEvent` calls
received so far, oldest first, the answer of `GetActiveReplayName()`, and
the `ServerConnection` pointer (`none` for a null pointer). -/
structure UDemoNetDriver where
  bIsRecording : Bool
  bIsPlaying : Bool
  AccumulatedRecordTime : float
  DemoTotalTime : float
  AddedEvents : List FReplayEventCall
  ActiveReplayName : FString
  ServerConnection : Option UNetConnection
  deriving DecidableEq

/-- `UDemoNetDriver::AddOrUpdateEvent`: the call is recorded. -/
def UDemoNetDriver.AddOrUpdateEvent (Driver : UDemoNetDriver) (EventId Group Metadata : FString)
    (Data : TArray uint8) : UDemoNetDriver :=
  { Driver with AddedEvents := Driver.AddedEvents ++ [⟨EventId, Group, Metadata, Data⟩] }

/-- The part of the world settings the library reads and writes: the pauser
player state (`GetPauserPlayerState`, `SetPauserPlayerState`), `none` for a
null pointer. -/
structure AWorldSettings where
  PauserPlayerState : Option APlayerState
  deriving DecidableEq

/-- `AWorldSettings::SetPauserPlayerState`. -/
def AWorldSettings.SetPauserPlayerState (WorldSettings : AWorldSettings)
    (PlayerState : Option APlayerState) : AWorldSettings :=
  { WorldSettings with PauserPlayerState := PlayerState }

/-- The replay player controller of the plugin (`ReplayPlayerController.h`,
not among the sources): the `OnTogglePause` events it received, oldest
first. -/
structure AReplayPlayerController where
  TogglePauseEvents : List Bool
  deriving DecidableEq

/-- `AReplayPlayerController::OnTogglePause`: the event is recorded. -/
def AReplayPlayerController.OnTogglePause (ReplayPC : AReplayPlayerController)
    (bIsPaused : Bool) : AReplayPlayerController :=
  { ReplayPC with TogglePauseEvents := ReplayPC.TogglePauseEvents ++ [bIsPaused] }

/-- The world: its demo net driver, if one exists (`GetDemoNetDriver`), its
world settings, if any (`GetWorldSettings`), the flag
`bIsCameraMoveableWhenPaused`, and the result of
`Cast<AReplayPlayerController>(UGameplayStatics::GetPlayerController(World, 0))`
(`none` when there is no first player controller or it is no replay player
controller). -/
structure UWorld where
  DemoNetDriver : Option UDemoNetDriver
  WorldSettings : Option AWorldSettings
  bIsCameraMoveableWhenPaused : Bool
  ReplayPC : Option AReplayPlayerController
  deriving DecidableEq

/-- A world context object: the world it resolves to, if any. -/
structure UObject where
  World : Option UWorld
  deriving DecidableEq

/-- A world passed where a context object is expected resolves to itself. -/
def UWorld.AsObject (World : UWorld) : UObject :=
  { World := some World }

/-- `GEngine->GetWorldFromContextObjectChecked`. -/
def GetWorldFromContextObjectChecked (WorldContextObject : UObject) : Option UWorld :=
  WorldContextObject.World

/-- `UReplaySystemBPLibrary::GetDemoDriver`. -/
def GetDemoDriver (WorldContextObject : UObject) : Option UDemoNetDriver :=
  match GetWorldFromContextObjectChecked WorldContextObject with
  | some World => World.DemoNetDriver
  | none => none

/-- `UReplaySystemBPLibrary::IsRecordingReplay`. -/
def IsRecordingReplay (WorldContextObject : UObject) : Bool :=
  match GetWorldFromContextObjectChecked WorldContextObject with
  | some World =>
    match GetDemoDriver World.AsObject with
    | some Driver => Driver.bIsRecording
    | none => false
  | none => false

/-- `UReplaySystemBPLibrary::IsPlayingReplay`. -/
def IsPlayingReplay (WorldContextObject : UObject) : Bool :=
  match GetWorldFromContextObjectChecked WorldContextObject with
  | some World =>
    match GetDemoDriver World.AsObject with
    | some DemoDriver => DemoDriver.bIsPlaying
    | none => false
  | none => false

/-- `UReplaySystemBPLibrary::GetReplayLength`. -/
def GetReplayLength (WorldContextObject : UObject) : float :=
  match GetWorldFromContextObjectChecked WorldContextObject with
  | some World =>
    match GetDemoDriver World.AsObject with
    | some DemoDriver =>
      if IsRecordingReplay WorldContextObject then DemoDriver.AccumulatedRecordTime
      else if IsPlayingReplay WorldContextObject then DemoDriver.DemoTotalTime
      else 0
    | none => 0
  | none => 0

/-- `UReplaySystemBPLibrary::AddEventToActiveReplay`: the returned flag and
the context object after the call. -/
def AddEventToActiveReplay (WorldContextObject : UObject) (EventId Group Metadata : FString)
    (Data : TArray uint8) : Bool × UObject :=
  match GetWorldFromContextObjectChecked WorldContextObject with
  | some World =>
    if IsRecordingReplay WorldContextObject then
      match GetDemoDriver World.AsObject with
      | some Driver =>
        (true, { WorldContextObject with
          World := some { World with
            DemoNetDriver := some (Driver.AddOrUpdateEvent EventId Group Metadata Data) } })
      | none => (false, WorldContextObject)
    else (false, WorldContextObject)
  | none => (false, WorldContextObject)

/-- `UReplaySystemBPLibrary::IsReplayPlaybackPaused`. -/
def IsReplayPlaybackPaused (WorldContextObject : UObject) : Bool :=
  match GetWorldFromContextObjectChecked WorldContextObject with
  | some World =>
    if IsPlayingReplay WorldContextObject then
      match World.WorldSettings with
      | some WorldSettings => WorldSettings.PauserPlayerState.isSome
      | none => false
    else false
  | none => false

/-- `UReplaySystemBPLibrary::PausePlayback`: the context object after the
call.  The source dereferences `DemoDriver->ServerConnection` and
`ServerConnection->PlayerController` without a null check; the result is
`none` when one of the two is a null pointer. -/
def PausePlayback (WorldContextObject : UObject) : Option UObject :=
  match GetWorldFromContextObjectChecked WorldContextObject with
  | some World =>
    match World.WorldSettings with
    | some WorldSettings =>
      match GetDemoDriver World.AsObject with
      | some DemoDriver =>
        match DemoDriver.ServerConnection with
        | none => none
        | some ServerConnection =>
          match ServerConnection.PlayerController with
          | none => none
          | some PlayerController =>
            match PlayerController.PlayerState with
            | some PlayerState =>
              some { WorldContextObject with
                World := some { World with
                  bIsCameraMoveableWhenPaused := true
                  WorldSettings := some (WorldSettings.SetPauserPlayerState (some PlayerState))
                  ReplayPC := World.ReplayPC.map fun ReplayPC => ReplayPC.OnTogglePause true } }
            | none => some WorldContextObject
      | none => some WorldContextObject
    | none => some WorldContextObject
  | none => some WorldContextObject

/-- `UReplaySystemBPLibrary::GetActiveReplayName`. -/
def GetActiveReplayName (WorldContextObject : UObject) : FString :=
  match GetWorldFromContextObjectChecked WorldContextObject with
  | some World =>
    match GetDemoDriver World.AsObject with
    | some Driver => Driver.ActiveReplayName
    | none => "None"
  | none => "None"

/-- An entry of the event list a streamer returns (`FReplayEventListItem`);
`Time1` is a `uint32`. -/
structure FReplayEventListItem where
  ID : FString
  Group : FString
  Metadata : FString
  Time1 : Nat
  deriving DecidableEq

/-- The result a streamer passes to an event enumeration delegate: the answer
of `WasSuccessful()` and `ReplayEventList.ReplayEvents`. -/
structure FEnumerateEventsResult where
  bWasSuccessful : Bool
  ReplayEvents : List FReplayEventListItem
  deriving DecidableEq

/-- The event record handed to Blueprint (`FReplayEvent` of `ReplayStructs.h`,
not among the sources): the fields the library assigns. -/
structure FReplayEvent where
  EventID : FString
  Group : FString
  TimeInMs : Int
  Metadata : FString
  deriving DecidableEq

/-- The dynamic delegate `FOnRequestEventsComplete` (`ReplayDelegates.h`): the
object and the function it is bound to. -/
structure FOnRequestEventsComplete where
  Object : Nat
  FunctionName : FString
  deriving DecidableEq

/-- The part of a replay streamer the library uses besides its calls. -/
structure INetworkReplayStreamer where
  DemoPath : FString
  deriving DecidableEq

/-- A call the library makes on the streamer or on a completion callback.
`EnumerateEvents` is `INetworkReplayStreamer::EnumerateEvents` with the
delegate made from the lambda that captured `OnRequestEventsComplete`;
`Execute` is `OnRequestEventsComplete.Execute(ReplayEvents)`. -/
inductive FReplayCall where
  | EnumerateEvents (ReplayName Group : FString) (UserIndex : Int)
      (OnRequestEventsComplete : FOnRequestEventsComplete)
  | Execute (OnRequestEventsComplete : FOnRequestEventsComplete)
      (ReplayEvents : TArray FReplayEvent)
  deriving DecidableEq

/-- `static_cast<int32>` of a `uint32`. -/
def toInt32 (n : Nat) : Int :=
  if n % 2 ^ 32 < 2 ^ 31 then ((n % 2 ^ 32 : Nat) : Int) else ((n % 2 ^ 32 : Nat) : Int) - 2 ^ 32

/-- The lambda `EnumerateEventsDel` of `GetActiveReplayEvents`: the call it
makes when the streamer runs it on `Results`. -/
def EnumerateEventsDel (OnRequestEventsComplete : FOnRequestEventsComplete)
    (Results : FEnumerateEventsResult) : FReplayCall :=
  let ReplayEvents : TArray FReplayEvent :=
    if Results.bWasSuccessful then
      Results.ReplayEvents.map fun EventItem =>
        { EventID := EventItem.ID, Group := EventItem.Group,
          TimeInMs := toInt32 EventItem.Time1, Metadata := EventItem.Metadata }
    else []
  FReplayCall.Execute OnRequestEventsComplete ReplayEvents

/-- `UReplaySystemBPLibrary::GetActiveReplayEvents`: the calls the body makes,
in order.  `EnumerateStreamsPtr` is what
`FNetworkReplayStreaming::Get().GetFactory().CreateReplayStreamer()` returns
(`none` for a null pointer). -/
def GetActiveReplayEvents (EnumerateStreamsPtr : Option INetworkReplayStreamer)
    (WorldContextObject : UObject) (Group : FString) (UserIndex : Int)
    (OnRequestEventsComplete : FOnRequestEventsComplete) : List FReplayCall :=
  if !IsRecordingReplay WorldContextObject && IsPlayingReplay WorldContextObject then
    match EnumerateStreamsPtr with
    | some _ =>
      [FReplayCall.EnumerateEvents (GetActiveReplayName WorldContextObject) Group UserIndex
        OnRequestEventsComplete]
    | none => []
  else []

/-! ## Specification engine

The engine services as the codec specification describes them (sections 3,
4.1, 6 and 7): a UTF-8 text-to-bytes transform, a textual field name to value
representation, and conversion between records and that representation field
by field and by name, item by item for arrays and recursively for nested
records. -/

/-- Modelled from the spec: the bytes of one character under the
text-to-bytes transform ("a fixed, reversible text-to-bytes transform (e.g.,
UTF-8 byte sequence ...)", section 4.1); the engine's `FString` archive
operator is not in the repository. -/
def utf8EncodeChar (c : Char) : List uint8 :=
  let n := c.toNat
  if n < 128 then [Fin.ofNat n]
  else if n < 2048 then [Fin.ofNat (192 + n / 64), Fin.ofNat (128 + n % 64)]
  else if n < 65536 then
    [Fin.ofNat (224 + n / 4096), Fin.ofNat (128 + n / 64 % 64), Fin.ofNat (128 + n % 64)]
  else
    [Fin.ofNat (240 + n / 262144), Fin.ofNat (128 + n / 4096 % 64),
     Fin.ofNat (128 + n / 64 % 64), Fin.ofNat (128 + n % 64)]

/-- Modelled from the spec: the text-to-bytes transform of section 4.1, UTF-8
without a length prefix (section 6 leaves the framing free); the engine's
`FString` archive operator is not in the repository. -/
def utf8Encode : List Char → List uint8
  | [] => []
  | c :: cs => utf8EncodeChar c ++ utf8Encode cs

/-- Modelled from the spec: the reverse of the text-to-bytes transform
(section 4.1, "reverse the byte-to-text transform"); a sequence cut inside a
character ends the text.  The engine's `FString` archive operator is not in
the repository. -/
def utf8Decode : List uint8 → List Char
  | [] => []
  | b0 :: rest =>
    if b0.val < 128 then Char.ofNat b0.val :: utf8Decode rest
    else match rest with
      | [] => []
      | b1 :: rest1 =>
        if b0.val < 224 then
          Char.ofNat ((b0.val - 192) * 64 + (b1.val - 128)) :: utf8Decode rest1
        else match rest1 with
          | [] => []
          | b2 :: rest2 =>
            if b0.val < 240 then
              Char.ofNat ((b0.val - 224) * 4096 + (b1.val - 128) * 64 + (b2.val - 128))
                :: utf8Decode rest2
            else match rest2 with
              | [] => []
              | b3 :: rest3 =>
                Char.ofNat ((b0.val - 240) * 262144 + (b1.val - 128) * 4096
                  + (b2.val - 128) * 64 + (b3.val - 128)) :: utf8Decode rest3

/-- The double quote character. -/
def dquote : Char := Char.ofNat 34
/-- The backslash character. -/
def backslash : Char := Char.ofNat 92
/-- The opening brace character. -/
def lbrace : Char := Char.ofNat 123
/-- The closing brace character. -/
def rbrace : Char := Char.ofNat 125
/-- The opening bracket character. -/
def lbracket : Char := Char.ofNat 91
/-- The closing bracket character. -/
def rbracket : Char := Char.ofNat 93
/-- The comma character. -/
def comma : Char := Char.ofNat 44
/-- The colon character. -/
def colon : Char := Char.ofNat 58
/-- The minus sign. -/
def minus : Char := Char.ofNat 45
/-- The plus sign. -/
def plus : Char := Char.ofNat 43
/-- The decimal point. -/
def dot : Char := Char.ofNat 46
/-- The slash character. -/
def slash : Char := Char.ofNat 47

/-- The character of a decimal digit. -/
def digitChar (d : Nat) : Char := Char.ofNat (48 + d)

/-- Whether a character is a decimal digit. -/
def isDigit (c : Char) : Bool := decide (48 ≤ c.toNat) && decide (c.toNat ≤ 57)

/-- Whether a character is blank: space, tab, line feed or carriage return. -/
def isBlank (c : Char) : Bool :=
  decide (c.toNat = 32) || decide (c.toNat = 9) || decide (c.toNat = 10) || decide (c.toNat = 13)

/-- Whether a character opens an exponent: the letter e in either case. -/
def isExponentMark (c : Char) : Bool := decide (c.toNat = 101) || decide (c.toNat = 69)

/-- The input behind its leading blanks. -/
def skipBlanks : List Char → List Char
  | [] => []
  | c :: cs => if isBlank c then skipBlanks cs else c :: cs

/-- Quotes and backslashes of a text are written behind a backslash. -/
def escape : List Char → List Char
  | [] => []
  | c :: cs =>
    if c = dquote ∨ c = backslash then backslash :: c :: escape cs else c :: escape cs

/-- The decimal digits of `n` in front of `acc`; `fuel` bounds the number of
digits and `n + 1` is always enough. -/
def writeNatAux : Nat → Nat → List Char → List Char
  | 0, _, acc => acc
  | fuel + 1, n, acc =>
    if n < 10 then digitChar n :: acc
    else writeNatAux fuel (n / 10) (digitChar (n % 10) :: acc)

/-- The decimal digits of a natural number. -/
def writeNat (n : Nat) : List Char := writeNatAux (n + 1) n []

/-- The last `k` decimal digits of `n`, most significant first. -/
def writeFixed : Nat → Nat → List Char
  | 0, _ => []
  | k + 1, n => writeFixed k (n / 10) ++ [digitChar (n % 10)]

/-- The text of the number `Mantissa / 10 ^ Scale`: an optional sign, the
whole part, and, when `Scale` is not 0, a point and `Scale` digits. -/
def writeNumber (Mantissa : Int) (Scale : Nat) : List Char :=
  (if Mantissa < 0 then [minus] else [])
    ++ (writeNat (Mantissa.natAbs / 10 ^ Scale)
    ++ (if Scale = 0 then [] else dot :: writeFixed Scale (Mantissa.natAbs % 10 ^ Scale)))

/-- The text of a quoted string. -/
def writeString (s : FString) : List Char := dquote :: (escape s.toList ++ [dquote])

mutual
/-- The intermediate text of a value: a word, a number, a quoted text, the
items of an array between brackets, or the entries of an object between
braces. -/
def writeValue : FJsonValue → List Char
  | .Null => "null".toList
  | .Boolean true => "true".toList
  | .Boolean false => "false".toList
  | .Number m k => writeNumber m k
  | .Text v => writeString v
  | .Array items => lbracket :: (writeItems items ++ [rbracket])
  | .Object entries => lbrace :: (writeEntries entries ++ [rbrace])
/-- The intermediate text of the items of an array, separated by commas. -/
def writeItems : List FJsonValue → List Char
  | [] => []
  | v :: vs => writeValue v ++ writeItemsTail vs
/-- The intermediate text of the items behind the first, each behind a comma. -/
def writeItemsTail : List FJsonValue → List Char
  | [] => []
  | v :: vs => comma :: (writeValue v ++ writeItemsTail vs)
/-- The intermediate text of the entries of an object, separated by commas:
each entry is the quoted name, a colon, the value. -/
def writeEntries : List (FString × FJsonValue) → List Char
  | [] => []
  | (k, v) :: es => writeString k ++ colon :: (writeValue v ++ writeEntriesTail es)
/-- The intermediate text of the entries behind the first, each behind a
comma. -/
def writeEntriesTail : List (FString × FJsonValue) → List Char
  | [] => []
  | (k, v) :: es => comma :: (writeString k ++ colon :: (writeValue v ++ writeEntriesTail es))
end

/-- Modelled from the spec: the Intermediate Text Representation (section 3,
"a textual, self-describing encoding (field name → value mapping)"), one
entry per field between braces, "recursively for nested records" (section
4.1); the engine's JSON writer is not in the repository. -/
def JsonObjectToText (Object : FJsonObject) : FString :=
  String.mk (writeValue (FJsonValue.Object Object))

/-- The value of a hexadecimal digit. -/
def hexValue (c : Char) : Option Nat :=
  if 48 ≤ c.toNat ∧ c.toNat ≤ 57 then some (c.toNat - 48)
  else if 97 ≤ c.toNat ∧ c.toNat ≤ 102 then some (c.toNat - 87)
  else if 65 ≤ c.toNat ∧ c.toNat ≤ 70 then some (c.toNat - 55)
  else none

/-- The character an escape letter stands for. -/
def unescape (c : Char) : Option Char :=
  if c = dquote then some dquote
  else if c = backslash then some backslash
  else if c = slash then some slash
  else if c.toNat = 98 then some (Char.ofNat 8)
  else if c.toNat = 102 then some (Char.ofNat 12)
  else if c.toNat = 110 then some (Char.ofNat 10)
  else if c.toNat = 114 then some (Char.ofNat 13)
  else if c.toNat = 116 then some (Char.ofNat 9)
  else none

/-- Reads a quoted text behind its opening quote: the text and the input
behind the closing quote.  A backslash introduces an escape letter or the
letter u and four hexadecimal digits. -/
def readString : List Char → Option (List Char × List Char)
  | [] => none
  | c :: cs =>
    if c = dquote then some ([], cs)
    else if c = backslash then
      match cs with
      | [] => none
      | d :: ds =>
        if d.toNat = 117 then
          match ds with
          | h1 :: h2 :: h3 :: h4 :: r =>
            match hexValue h1, hexValue h2, hexValue h3, hexValue h4 with
            | some a, some b, some c2, some e =>
              (readString r).map fun p =>
                (Char.ofNat (((a * 16 + b) * 16 + c2) * 16 + e) :: p.1, p.2)
            | _, _, _, _ => none
          | _ => none
        else
          match unescape d with
          | some u => (readString ds).map fun p => (u :: p.1, p.2)
          | none => none
    else (readString cs).map fun p => (c :: p.1, p.2)

/-- Reads decimal digits into `acc`: the number and the input behind the
last digit. -/
def readDigits : Nat → List Char → Nat × List Char
  | acc, [] => (acc, [])
  | acc, c :: cs =>
    if isDigit c then readDigits (acc * 10 + (c.toNat - 48)) cs else (acc, c :: cs)

/-- Reads the digits of a fraction into `acc`, counting them: the number, the
count and the input behind the last digit. -/
def readFraction : Nat → Nat → List Char → Nat × Nat × List Char
  | acc, n, [] => (acc, n, [])
  | acc, n, c :: cs =>
    if isDigit c then readFraction (acc * 10 + (c.toNat - 48)) (n + 1) cs
    else (acc, n, c :: cs)

/-- The number `Mantissa / 10 ^ Scale` times ten to the exponent. -/
def applyExponent (Mantissa : Int) (Scale : Nat) (negative : Bool) (e : Nat) : FJsonValue :=
  if negative then FJsonValue.Number Mantissa (Scale + e)
  else if e ≤ Scale then FJsonValue.Number Mantissa (Scale - e)
  else FJsonValue.Number (Mantissa * 10 ^ (e - Scale)) 0

/-- Reads an optional exponent behind a number. -/
def readExponent (Mantissa : Int) (Scale : Nat) : List Char → Option (FJsonValue × List Char)
  | [] => some (FJsonValue.Number Mantissa Scale, [])
  | c :: cs =>
    if isExponentMark c then
      match cs with
      | [] => none
      | s :: r =>
        if s = minus ∨ s = plus then
          match r with
          | [] => none
          | d :: _ =>
            if isDigit d then
              some (applyExponent Mantissa Scale (decide (s = minus)) (readDigits 0 r).1,
                (readDigits 0 r).2)
            else none
        else if isDigit s then
          some (applyExponent Mantissa Scale false (readDigits 0 cs).1, (readDigits 0 cs).2)
        else none
    else some (FJsonValue.Number Mantissa Scale, c :: cs)

/-- Reads the fraction and exponent behind the whole part of a number. -/
def readNumberTail (negative : Bool) (whole : Nat) : List Char → Option (FJsonValue × List Char)
  | [] => some (FJsonValue.Number (if negative then -(whole : Int) else whole) 0, [])
  | c :: cs =>
    if c = dot then
      match cs with
      | [] => none
      | d :: _ =>
        if isDigit d then
          readExponent
            (if negative then
              -((whole * 10 ^ (readFraction 0 0 cs).2.1 + (readFraction 0 0 cs).1 : Nat) : Int)
            else ((whole * 10 ^ (readFraction 0 0 cs).2.1 + (readFraction 0 0 cs).1 : Nat) : Int))
            (readFraction 0 0 cs).2.1 (readFraction 0 0 cs).2.2
        else none
    else readExponent (if negative then -(whole : Int) else whole) 0 (c :: cs)

/-- Reads a number: an optional sign, digits, an optional fraction, an
optional exponent. -/
def readNumber : List Char → Option (FJsonValue × List Char)
  | [] => none
  | c :: cs =>
    if c = minus then
      match cs with
      | [] => none
      | d :: _ =>
        if isDigit d then readNumberTail true (readDigits 0 cs).1 (readDigits 0 cs).2 else none
    else if isDigit c then
      readNumberTail false (readDigits 0 (c :: cs)).1 (readDigits 0 (c :: cs)).2
    else none

/-- The input behind a given word, when it starts with that word. -/
def dropWord : List Char → List Char → Option (List Char)
  | [], cs => some cs
  | _ :: _, [] => none
  | w :: ws, c :: cs => if w = c then dropWord ws cs else none

/-- Reads one of the words `null`, `true`, `false`. -/
def readWord (cs : List Char) : Option (FJsonValue × List Char) :=
  match dropWord "null".toList cs with
  | some r => some (FJsonValue.Null, r)
  | none =>
    match dropWord "true".toList cs with
    | some r => some (FJsonValue.Boolean true, r)
    | none =>
      match dropWord "false".toList cs with
      | some r => some (FJsonValue.Boolean false, r)
      | none => none

mutual
/-- Reads a value behind optional blanks: a quoted text, an object, an
array, a number or a word; `fuel` bounds the nesting and the number of
items. -/
def readValue : Nat → List Char → Option (FJsonValue × List Char)
  | 0, _ => none
  | fuel + 1, cs =>
    match skipBlanks cs with
    | [] => none
    | c :: r =>
      if c = dquote then (readString r).map fun p => (FJsonValue.Text (String.mk p.1), p.2)
      else if c = lbrace then
        match skipBlanks r with
        | [] => none
        | d :: r2 =>
          if d = rbrace then some (FJsonValue.Object [], r2)
          else (readEntries fuel (d :: r2)).map fun p => (FJsonValue.Object p.1, p.2)
      else if c = lbracket then
        match skipBlanks r with
        | [] => none
        | d :: r2 =>
          if d = rbracket then some (FJsonValue.Array [], r2)
          else (readItems fuel (d :: r2)).map fun p => (FJsonValue.Array p.1, p.2)
      else if c = minus ∨ isDigit c = true then readNumber (c :: r)
      else readWord (c :: r)
/-- Reads the items of an array up to the closing bracket. -/
def readItems : Nat → List Char → Option (List FJsonValue × List Char)
  | 0, _ => none
  | fuel + 1, cs =>
    match readValue fuel cs with
    | none => none
    | some (v, r) =>
      match skipBlanks r with
      | [] => none
      | c :: r2 =>
        if c = rbracket then some ([v], r2)
        else if c = comma then (readItems fuel r2).map fun p => (v :: p.1, p.2)
        else none
/-- Reads the entries of an object up to the closing brace: each entry is a
quoted name, a colon, a value. -/
def readEntries : Nat → List Char → Option (List (FString × FJsonValue) × List Char)
  | 0, _ => none
  | fuel + 1, cs =>
    match skipBlanks cs with
    | [] => none
    | q :: r =>
      if q = dquote then
        match readString r with
        | none => none
        | some (k, r1) =>
          match skipBlanks r1 with
          | [] => none
          | c1 :: r2 =>
            if c1 = colon then
              match readValue fuel r2 with
              | none => none
              | some (v, r3) =>
                match skipBlanks r3 with
                | [] => none
                | c :: r4 =>
                  if c = rbrace then some ([(String.mk k, v)], r4)
                  else if c = comma then
                    (readEntries fuel r4).map fun p => ((String.mk k, v) :: p.1, p.2)
                  else none
            else none
      else none
end

/-- Modelled from the spec: parsing of the Intermediate Text Representation
(section 4.1, "parse the intermediate text representation"): one object,
blanks allowed between its tokens and behind it; `none` when the text does
not parse (MalformedInput, section 7).  The length of the text bounds the
nesting and the number of items.  The engine's JSON reader is not in the
repository. -/
def TextToJsonObject (Text : FString) : Option FJsonObject :=
  match readValue (Text.length + 1) Text.toList with
  | some (FJsonValue.Object Object, rest) =>
    if skipBlanks rest = [] then some Object else none
  | _ => none

/-- Applies a conversion to every item; `none` when it fails on one. -/
def mapAll {α β : Type} (f : α → Option β) : List α → Option (List β)
  | [] => some []
  | a :: as =>
    match f a, mapAll f as with
    | some b, some bs => some (b :: bs)
    | _, _ => none

mutual
/-- Modelled from the spec: the mapping of a field type into the intermediate
representation (section 4.1, "any record whose field types are representable
in the intermediate representation"): the value a stored field of the given
type maps to, item by item for an array and "recursively for nested
records"; `none` when the type has no mapping.  The engine's JSON converter
is not in the repository. -/
def ExportField : EFieldType → FieldValue → Option FJsonValue
  | .Integer, .Integer v => some (FJsonValue.Number v 0)
  | .Text, .Text v => some (FJsonValue.Text v)
  | .Boolean, .Boolean v => some (FJsonValue.Boolean v)
  | .Decimal, .Decimal m k => some (FJsonValue.Number m k)
  | .Array T, .Array items =>
    (mapAll (fun v => ExportField T v) items).map FJsonValue.Array
  | .Struct ps, .Struct vs => (UStructToJsonObject ps vs).map FJsonValue.Object
  | _, _ => none
/-- Modelled from the spec: a record as an object of the intermediate
representation, "one entry per field, recursively for nested records"
(section 4.1); `none` when a field has no mapping (UnsupportedFieldType,
section 7).  The engine's JSON converter is not in the repository. -/
def UStructToJsonObject : List FProperty → StructMemory → Option FJsonObject
  | [], _ => some []
  | _ :: _, [] => none
  | ⟨name, kind⟩ :: ps, v :: vs =>
    match ExportField kind v, UStructToJsonObject ps vs with
    | some j, some Object => some ((name, j) :: Object)
    | _, _ => none
end

mutual
/-- The zero-initialised value of a field type. -/
def DefaultValue : EFieldType → FieldValue
  | .Integer => FieldValue.Integer 0
  | .Text => FieldValue.Text ""
  | .Unmapped => FieldValue.Raw 0
  | .Boolean => FieldValue.Boolean false
  | .Decimal => FieldValue.Decimal 0 0
  | .Array _ => FieldValue.Array []
  | .Struct ps => FieldValue.Struct (DefaultFields ps)
/-- The zero-initialised memory of a record type. -/
def DefaultFields : List FProperty → StructMemory
  | [] => []
  | ⟨_, kind⟩ :: ps => DefaultValue kind :: DefaultFields ps
end

mutual
/-- Modelled from the spec: "applying the caller-supplied type descriptor for
coercion" (section 4.1): the stored value a value of the intermediate
representation is coerced to for a field of the given type that holds the
given value, `none` when the type does not accept it.  An integer field
accepts a number without fraction digits, a decimal field every number; an
array is replaced by the items of the entry, each imported into a
zero-initialised value; a nested record is populated in place, like the
record itself.  The engine's JSON converter is not in the repository. -/
def ImportField : EFieldType → FJsonValue → FieldValue → Option FieldValue
  | .Integer, .Number m 0, _ => some (FieldValue.Integer m)
  | .Text, .Text v, _ => some (FieldValue.Text v)
  | .Boolean, .Boolean v, _ => some (FieldValue.Boolean v)
  | .Decimal, .Number m k, _ => some (FieldValue.Decimal m k)
  | .Array T, .Array js, _ =>
    (mapAll (fun j => ImportField T j (DefaultValue T)) js).map FieldValue.Array
  | .Struct ps, .Object es, .Struct vs =>
    some (FieldValue.Struct (JsonObjectToFields es ps vs).2)
  | _, _, _ => none
/-- Modelled from the spec: the destination record populated from an object,
"populate the destination record's fields by name, applying the
caller-supplied type descriptor for coercion"; "unknown field names in the
text representation are ignored; fields present in the descriptor but absent
from the text representation are left at their prior value" (section 4.1).
The flag is false when an entry does not fit its field, which then keeps its
value.  The engine's JSON converter is not in the repository. -/
def JsonObjectToFields : FJsonObject → List FProperty → StructMemory → Bool × StructMemory
  | Object, ⟨name, kind⟩ :: ps, v :: vs =>
    match Object.lookup name with
    | none => ((JsonObjectToFields Object ps vs).1, v :: (JsonObjectToFields Object ps vs).2)
    | some j =>
      match ImportField kind j v with
      | some w => ((JsonObjectToFields Object ps vs).1, w :: (JsonObjectToFields Object ps vs).2)
      | none => (false, v :: (JsonObjectToFields Object ps vs).2)
  | _, _, vs => (true, vs)
end

/-- Modelled from the spec: the engine services of the Generic Struct Codec
as sections 3, 4.1, 6 and 7 describe them; the engine is not in the
repository.  Encoding writes the intermediate text of the record, or nothing
when a field has no mapping; the byte transform is UTF-8; a new wrapper holds
the empty object; parsing replaces the wrapper's object, or leaves the
wrapper as it is when the text does not parse; decoding populates fields by
name. -/
def specEngine : Engine where
  UStructToJsonObjectString Struct Value Out :=
    match UStructToJsonObject Struct.Properties Value with
    | some Object => (true, Out ++ JsonObjectToText Object)
    | none => (false, Out)
  SaveFString Bytes Value := Bytes ++ utf8Encode Value.toList
  LoadFString Bytes _ := String.mk (utf8Decode Bytes)
  MakeWrapper := { JsonObject := [] }
  JsonObjectFromString Wrapper Text :=
    match TextToJsonObject Text with
    | some Object => (true, { Wrapper with JsonObject := Object })
    | none => (false, Wrapper)
  JsonObjectToUStruct Object Struct Value := JsonObjectToFields Object Struct.Properties Value

mutual
/-- A stored value is of a field type; the items of an array are of the
element type, the fields of a nested record fit its descriptor. -/
def HasType : EFieldType → FieldValue → Prop
  | .Integer, .Integer _ => True
  | .Text, .Text _ => True
  | .Unmapped, .Raw _ => True
  | .Boolean, .Boolean _ => True
  | .Decimal, .Decimal _ _ => True
  | .Array T, .Array items => ∀ x ∈ items, HasType T x
  | .Struct ps, .Struct vs => Conforms ps vs
  | _, _ => False
/-- A record memory that fits a descriptor: one stored value per field, each
of the field's type. -/
def Conforms : List FProperty → StructMemory → Prop
  | [], [] => True
  | ⟨_, kind⟩ :: ps, v :: vs => HasType kind v ∧ Conforms ps vs
  | _, _ => False
end

mutual
/-- A field type has a mapping into the intermediate representation, and so
have the element type of an array and the field types of a nested record. -/
def Mapped : EFieldType → Prop
  | .Unmapped => False
  | .Array T => Mapped T
  | .Struct ps => MappedFields ps
  | _ => True
/-- Every field type of the fields has a mapping into the intermediate
representation. -/
def MappedFields : List FProperty → Prop
  | [] => True
  | ⟨_, kind⟩ :: ps => Mapped kind ∧ MappedFields ps
end

/-- Every field type of the descriptor has a mapping into the intermediate
representation, at every level of nesting. -/
def Representable (Struct : UStruct) : Prop := MappedFields Struct.Properties

/-- The field names of a descriptor. -/
def UStruct.Names (Struct : UStruct) : List FString :=
  Struct.Properties.map fun p => p.Name

mutual
/-- The record types inside a field type have no two fields of the same
name. -/
def DistinctNames : EFieldType → Prop
  | .Array T => DistinctNames T
  | .Struct ps => (ps.map fun p => p.Name).Nodup ∧ DistinctFieldNames ps
  | _ => True
/-- The record types inside the field types of the fields have no two fields
of the same name. -/
def DistinctFieldNames : List FProperty → Prop
  | [] => True
  | ⟨_, kind⟩ :: ps => DistinctNames kind ∧ DistinctFieldNames ps
end

/-- A descriptor is well formed: no two fields of the record type, nor of a
record type nested in it, have the same name. -/
def UStruct.WellFormed (Struct : UStruct) : Prop :=
  Struct.Names.Nodup ∧ DistinctFieldNames Struct.Properties

mutual
/-- A value of the intermediate representation fits a field type: a number
without fraction digits for an integer, a text, a boolean, a number for a
decimal, an array of fitting items, and for a nested record an object that
has a fitting entry for every field and no entry under another name. -/
def Fits : EFieldType → FJsonValue → Prop
  | .Integer, .Number _ 0 => True
  | .Text, .Text _ => True
  | .Boolean, .Boolean _ => True
  | .Decimal, .Number _ _ => True
  | .Array T, .Array js => ∀ j ∈ js, Fits T j
  | .Struct ps, .Object es =>
    FitsFields ps es ∧ ∀ k, k ∉ (ps.map fun p => p.Name) → es.lookup k = none
  | _, _ => False
/-- An object has a fitting entry for every field. -/
def FitsFields : List FProperty → FJsonObject → Prop
  | [], _ => True
  | ⟨name, kind⟩ :: ps, es => (∃ j, es.lookup name = some j ∧ Fits kind j) ∧ FitsFields ps es
end

/-- Two values of the intermediate representation carry the same content:
equal scalars, arrays with pairwise same items, objects that map the same
names to same values (the order of the entries and entries shadowed by an
earlier entry of the same name do not count). -/
inductive JsonSame : FJsonValue → FJsonValue → Prop where
  | null : JsonSame FJsonValue.Null FJsonValue.Null
  | boolean (v : Bool) : JsonSame (FJsonValue.Boolean v) (FJsonValue.Boolean v)
  | number (m : Int) (k : Nat) : JsonSame (FJsonValue.Number m k) (FJsonValue.Number m k)
  | text (v : FString) : JsonSame (FJsonValue.Text v) (FJsonValue.Text v)
  | array (a b : List FJsonValue) : a.length = b.length →
      (∀ (i : Nat) (x y : FJsonValue), a[i]? = some x → b[i]? = some y → JsonSame x y) →
      JsonSame (FJsonValue.Array a) (FJsonValue.Array b)
  | object (a b : FJsonObject) :
      (∀ k : FString, a.lookup k = none ↔ b.lookup k = none) →
      (∀ (k : FString) (x y : FJsonValue),
        a.lookup k = some x → b.lookup k = some y → JsonSame x y) →
      JsonSame (FJsonValue.Object a) (FJsonValue.Object b)

/-- Two objects carry the same field name to value mapping, at every level
of nesting. -/
def SameMapping (A B : FJsonObject) : Prop :=
  JsonSame (FJsonValue.Object A) (FJsonValue.Object B)

mutual
/-- The number of nodes of a value, a bound on the fuel reading it takes. -/
def JsonSize : FJsonValue → Nat
  | .Array items => 1 + ItemsSize items
  | .Object entries => 1 + EntriesSize entries
  | _ => 1
/-- The number of nodes of the items of an array. -/
def ItemsSize : List FJsonValue → Nat
  | [] => 0
  | v :: vs => 1 + JsonSize v + ItemsSize vs
/-- The number of nodes of the entries of an object. -/
def EntriesSize : List (FString × FJsonValue) → Nat
  | [] => 0
  | (_, v) :: es => 1 + JsonSize v + EntriesSize es
end

/-- The input is at its end or goes on with a comma, a closing brace or a
closing bracket. -/
def Closes (rest : List Char) : Prop :=
  ∀ c tl, rest = c :: tl → c = comma ∨ c = rbrace ∨ c = rbracket

/-- With the given fuel, every value written in front of a closing input,
every non-empty list of items written up to the closing bracket and every
non-empty list of entries written up to the closing brace reads back. -/
def ReadsBack (fuel : Nat) : Prop :=
  (∀ v rest, JsonSize v ≤ fuel → Closes rest →
      readValue fuel (writeValue v ++ rest) = some (v, rest))
  ∧ (∀ v vs rest, ItemsSize (v :: vs) ≤ fuel →
      readItems fuel (writeValue v ++ (writeItemsTail vs ++ rbracket :: rest))
        = some (v :: vs, rest))
  ∧ (∀ k v es rest, EntriesSize ((k, v) :: es) ≤ fuel →
      readEntries fuel (writeString k ++ colon :: (writeValue v
          ++ (writeEntriesTail es ++ rbrace :: rest)))
        = some ((k, v) :: es, rest))

/-- The record `name: "Alpha", score: 42` of section 8: its descriptor. -/
def sampleStruct : FStructProperty :=
  { Struct := { Properties := [⟨"name", .Text⟩, ⟨"score", .Integer⟩] } }

/-- The record `name: "Alpha", score: 42` of section 8: its memory. -/
def sampleRecord : StructMemory := [.Text "Alpha", .Integer 42]

/-- A zero-initialised record of the same shape. -/
def zeroRecord : StructMemory := [.Text "", .Integer 0]

/-- A record of the same shape with other content. -/
def otherRecord : StructMemory := [.Text "Beta", .Integer 7]

/-- The bytes of the text `\x7b"name":"Alpha","score":42\x7d`. -/
def sampleBuffer : TArray uint8 :=
  [123, 34, 110, 97, 109, 101, 34, 58, 34, 65, 108, 112, 104, 97, 34, 44,
   34, 115, 99, 111, 114, 101, 34, 58, 52, 50, 125]

/-- The buffer `sampleBuffer` cut before its last byte: the text lacks its
closing brace. -/
def truncatedBuffer : TArray uint8 :=
  [123, 34, 110, 97, 109, 101, 34, 58, 34, 65, 108, 112, 104, 97, 34, 44,
   34, 115, 99, 111, 114, 101, 34, 58, 52, 50]

/-- The bytes of the text `\x7b"name":"Alpha"\x7d`: no entry for `score`. -/
def nameOnlyBuffer : TArray uint8 :=
  [123, 34, 110, 97, 109, 101, 34, 58, 34, 65, 108, 112, 104, 97, 34, 125]

/-- The bytes of the text `\x7b"name":"Alpha","extra":7\x7d`: no entry for
`score`, and an entry no field of `sampleStruct` has. -/
def extraEntryBuffer : TArray uint8 :=
  [123, 34, 110, 97, 109, 101, 34, 58, 34, 65, 108, 112, 104, 97, 34, 44,
   34, 101, 120, 116, 114, 97, 34, 58, 55, 125]

/-- A record type with a field whose type has no mapping into the
intermediate representation. -/
def unmappedStruct : FStructProperty :=
  { Struct := { Properties := [⟨"name", .Text⟩, ⟨"callback", .Unmapped⟩] } }

/-- A record of type `unmappedStruct`. -/
def unmappedRecord : StructMemory := [.Text "Alpha", .Raw 7]

/-- A record type with a field of every mapped type: a text, an integer, a
decimal number, a boolean, an array of texts and a nested record of two
integers. -/
def nestedStruct : FStructProperty :=
  { Struct := { Properties :=
      [⟨"name", .Text⟩, ⟨"score", .Integer⟩, ⟨"ratio", .Decimal⟩, ⟨"alive", .Boolean⟩,
       ⟨"tags", .Array .Text⟩, ⟨"origin", .Struct [⟨"x", .Integer⟩, ⟨"y", .Integer⟩]⟩] } }

/-- A record of type `nestedStruct`: `name: "Alpha", score: 42, ratio: -1.5,
alive: true, tags: ["a", "b"], origin: (x: 3, y: -4)`. -/
def nestedRecord : StructMemory :=
  [.Text "Alpha", .Integer 42, .Decimal (-15) 1, .Boolean true,
   .Array [.Text "a", .Text "b"], .Struct [.Integer 3, .Integer (-4)]]

/-- The bytes of the text
`\x7b"name":"Alpha","score":42,"ratio":-1.5,"alive":true,"tags":["a","b"],"origin":\x7b"x":3,"y":-4\x7d\x7d`. -/
def nestedBuffer : TArray uint8 :=
  [123, 34, 110, 97, 109, 101, 34, 58, 34, 65, 108, 112, 104, 97, 34, 44,
   34, 115, 99, 111, 114, 101, 34, 58, 52, 50, 44, 34, 114, 97, 116, 105,
   111, 34, 58, 45, 49, 46, 53, 44, 34, 97, 108, 105, 118, 101, 34, 58,
   116, 114, 117, 101, 44, 34, 116, 97, 103, 115, 34, 58, 91, 34, 97, 34,
   44, 34, 98, 34, 93, 44, 34, 111, 114, 105, 103, 105, 110, 34, 58, 123,
   34, 120, 34, 58, 51, 44, 34, 121, 34, 58, 45, 52, 125, 125]

/-- The bytes of a text with the content of `nestedRecord` in another form:
blanks and a line break between the tokens, the entries in another order,
an exponent and an escaped character:
`\x7b "origin": \x7b "y": -4, "x": 3 \x7d, "tags": [ "a", "b" ], "alive": true,`
`  "ratio": -15e-1, "score": 42, "name": "Alpha" \x7d`. -/
def spacedBuffer : TArray uint8 :=
  [123, 32, 34, 111, 114, 105, 103, 105, 110, 34, 58, 32, 123, 32, 34, 121,
   34, 58, 32, 45, 52, 44, 32, 34, 120, 34, 58, 32, 51, 32, 125, 44,
   32, 34, 116, 97, 103, 115, 34, 58, 32, 91, 32, 34, 97, 34, 44, 32,
   34, 98, 34, 32, 93, 44, 32, 34, 97, 108, 105, 118, 101, 34, 58, 32,
   116, 114, 117, 101, 44, 10, 32, 32, 34, 114, 97, 116, 105, 111, 34, 58,
   32, 45, 49, 53, 101, 45, 49, 44, 32, 34, 115, 99, 111, 114, 101, 34,
   58, 32, 52, 50, 44, 32, 34, 110, 97, 109, 101, 34, 58, 32, 34, 65,
   108, 92, 117, 48, 48, 55, 48, 104, 97, 34, 32, 125]

/-- The object the text of `spacedBuffer` parses to. -/
def spacedObject : FJsonObject :=
  [("origin", .Object [("y", .Number (-4) 0), ("x", .Number 3 0)]),
   ("tags", .Array [.Text "a", .Text "b"]),
   ("alive", .Boolean true),
   ("ratio", .Number (-15) 1),
   ("score", .Number 42 0),
   ("name", .Text "Alpha")]

/-- A context object whose world has world settings without pauser, a replay
player controller, and a demo driver that is playing the replay `match1`
over a server connection whose player controller has player state 1. -/
def playingObject : UObject :=
  { World := some
      { DemoNetDriver := some
          { bIsRecording := false, bIsPlaying := true, AccumulatedRecordTime := 0,
            DemoTotalTime := 90, AddedEvents := [], ActiveReplayName := "match1",
            ServerConnection := some (UNetConnection.mk (some (APlayerController.mk
              (some (APlayerState.mk 1))))) }
        WorldSettings := some (AWorldSettings.mk none)
        bIsCameraMoveableWhenPaused := false
        ReplayPC := some (AReplayPlayerController.mk []) } }

/-- A context object whose world has world settings without pauser and a
demo driver that is recording: the driver has no server connection. -/
def recordingObject : UObject :=
  { World := some
      { DemoNetDriver := some
          { bIsRecording := true, bIsPlaying := false, AccumulatedRecordTime := 12,
            DemoTotalTime := 0, AddedEvents := [], ActiveReplayName := "match1",
            ServerConnection := none }
        WorldSettings := some (AWorldSettings.mk none)
        bIsCameraMoveableWhenPaused := false
        ReplayPC := some (AReplayPlayerController.mk []) } }

/-! ## Theorems -/

/-! ### The text-to-bytes transform of the specification engine -/

theorem toNat_lt_of_char (c : Char) : c.toNat < 1114112 := by
  have hv := c.valid
  simp only [UInt32.isValidChar, Nat.isValidChar] at hv
  have : c.toNat = c.val.toNat := rfl
  omega

theorem utf8Decode_one (b0 : uint8) (rest : List uint8) (h : b0.val < 128) :
    utf8Decode (b0 :: rest) = Char.ofNat b0.val :: utf8Decode rest := by
  rw [utf8Decode.eq_def]; simp [h]

theorem utf8Decode_two (b0 b1 : uint8) (rest : List uint8) (h : ¬ b0.val < 128)
    (h2 : b0.val < 224) :
    utf8Decode (b0 :: b1 :: rest)
      = Char.ofNat ((b0.val - 192) * 64 + (b1.val - 128)) :: utf8Decode rest := by
  rw [utf8Decode.eq_def]; simp [h, h2]

theorem utf8Decode_three (b0 b1 b2 : uint8) (rest : List uint8) (h : ¬ b0.val < 128)
    (h2 : ¬ b0.val < 224) (h3 : b0.val < 240) :
    utf8Decode (b0 :: b1 :: b2 :: rest)
      = Char.ofNat ((b0.val - 224) * 4096 + (b1.val - 128) * 64 + (b2.val - 128))
          :: utf8Decode rest := by
  rw [utf8Decode.eq_def]; simp [h, h2, h3]

theorem utf8Decode_four (b0 b1 b2 b3 : uint8) (rest : List uint8) (h : ¬ b0.val < 128)
    (h2 : ¬ b0.val < 224) (h3 : ¬ b0.val < 240) :
    utf8Decode (b0 :: b1 :: b2 :: b3 :: rest)
      = Char.ofNat ((b0.val - 240) * 262144 + (b1.val - 128) * 4096
          + (b2.val - 128) * 64 + (b3.val - 128)) :: utf8Decode rest := by
  rw [utf8Decode.eq_def]; simp [h, h2, h3]

theorem utf8Decode_encodeChar (c : Char) (rest : List uint8) :
    utf8Decode (utf8EncodeChar c ++ rest) = c :: utf8Decode rest := by
  have hlt := toNat_lt_of_char c
  have hc : Char.ofNat c.toNat = c := Char.ofNat_toNat c
  unfold utf8EncodeChar
  simp only []
  generalize c.toNat = n at hlt hc
  by_cases h1 : n < 128
  · rw [if_pos h1, List.singleton_append, utf8Decode_one _ _ (by simp [Fin.ofNat]; omega)]
    have e : n % 256 = n := by omega
    simp [Fin.ofNat, e, hc]
  · rw [if_neg h1]
    by_cases h2 : n < 2048
    · rw [if_pos h2, List.cons_append, List.singleton_append,
        utf8Decode_two _ _ _ (by simp [Fin.ofNat]; omega) (by simp [Fin.ofNat]; omega)]
      have e : ((192 + n / 64) % 256 - 192) * 64 + ((128 + n % 64) % 256 - 128) = n := by omega
      simp [Fin.ofNat, e, hc]
    · rw [if_neg h2]
      by_cases h3 : n < 65536
      · rw [if_pos h3, List.cons_append, List.cons_append, List.singleton_append,
          utf8Decode_three _ _ _ _ (by simp [Fin.ofNat]; omega) (by simp [Fin.ofNat]; omega)
            (by simp [Fin.ofNat]; omega)]
        have e : ((224 + n / 4096) % 256 - 224) * 4096 + ((128 + n / 64 % 64) % 256 - 128) * 64
            + ((128 + n % 64) % 256 - 128) = n := by omega
        simp [Fin.ofNat, e, hc]
      · rw [if_neg h3, List.cons_append, List.cons_append, List.cons_append,
          List.singleton_append,
          utf8Decode_four _ _ _ _ _ (by simp [Fin.ofNat]; omega) (by simp [Fin.ofNat]; omega)
            (by simp [Fin.ofNat]; omega)]
        have e : ((240 + n / 262144) % 256 - 240) * 262144
            + ((128 + n / 4096 % 64) % 256 - 128) * 4096
            + ((128 + n / 64 % 64) % 256 - 128) * 64 + ((128 + n % 64) % 256 - 128) = n := by
          omega
        simp [Fin.ofNat, e, hc]

theorem utf8Decode_encode (cs : List Char) : utf8Decode (utf8Encode cs) = cs := by
  induction cs with
  | nil => rfl
  | cons c cs ih => rw [utf8Encode, utf8Decode_encodeChar, ih]

/-- On the specification engine the byte form of a text reads back as the
text. -/
theorem specEngine_bytes_roundtrip (s : FString) :
    BytesToString specEngine (StringToBytes specEngine s) = s := by
  show String.mk (utf8Decode ([] ++ utf8Encode s.toList)) = s
  rw [List.nil_append, utf8Decode_encode]
  rfl

/-! ### The intermediate text of the specification engine -/

theorem readString_quote (cs : List Char) : readString (dquote :: cs) = some ([], cs) := by
  rw [readString.eq_def]; simp

theorem readString_escaped (d : Char) (ds : List Char) (h : d = dquote ∨ d = backslash) :
    readString (backslash :: d :: ds) = (readString ds).map fun p => (d :: p.1, p.2) := by
  have hb : backslash ≠ dquote := by decide
  rw [readString.eq_def]
  rcases h with rfl | rfl
  · have h1 : ¬ dquote.toNat = 117 := by decide
    have h2 : unescape dquote = some dquote := by decide
    simp [hb, h1, h2]
  · have h1 : ¬ backslash.toNat = 117 := by decide
    have h2 : unescape backslash = some backslash := by decide
    simp [hb, h1, h2]

theorem readString_plain (c : Char) (cs : List Char) (h1 : c ≠ dquote) (h2 : c ≠ backslash) :
    readString (c :: cs) = (readString cs).map fun p => (c :: p.1, p.2) := by
  rw [readString.eq_def]; simp [h1, h2]

theorem readString_escape (s rest : List Char) :
    readString (escape s ++ dquote :: rest) = some (s, rest) := by
  induction s with
  | nil => exact readString_quote rest
  | cons c cs ih =>
    by_cases h : c = dquote ∨ c = backslash
    · simp only [escape, if_pos h, List.cons_append]
      rw [readString_escaped _ _ h, ih]; rfl
    · have h1 : c ≠ dquote := fun e => h (Or.inl e)
      have h2 : c ≠ backslash := fun e => h (Or.inr e)
      simp only [escape, if_neg h, List.cons_append]
      rw [readString_plain c _ h1 h2, ih]; rfl

/-- A written string reads back. -/
theorem readString_writeString (s : FString) (rest : List Char) :
    ∃ tl, writeString s ++ rest = dquote :: tl ∧ readString tl = some (s.toList, rest) := by
  refine ⟨escape s.toList ++ dquote :: rest, ?_, readString_escape _ _⟩
  simp [writeString]

theorem isDigit_digitChar (d : Nat) (h : d < 10) : isDigit (digitChar d) = true := by
  interval_cases d <;> decide

theorem toNat_digitChar (d : Nat) (h : d < 10) : (digitChar d).toNat - 48 = d := by
  interval_cases d <;> decide

theorem readDigits_digitChar (a d : Nat) (h : d < 10) (cs : List Char) :
    readDigits a (digitChar d :: cs) = readDigits (a * 10 + d) cs := by
  simp [readDigits, isDigit_digitChar d h, toNat_digitChar d h]

theorem readFraction_digitChar (a n d : Nat) (h : d < 10) (cs : List Char) :
    readFraction a n (digitChar d :: cs) = readFraction (a * 10 + d) (n + 1) cs := by
  simp [readFraction, isDigit_digitChar d h, toNat_digitChar d h]

theorem readDigits_writeNatAux (fuel : Nat) :
    ∀ (n : Nat) (acc : List Char), n < fuel →
      ∃ k, ∀ a, readDigits a (writeNatAux fuel n acc) = readDigits (a * 10 ^ k + n) acc := by
  induction fuel with
  | zero => intro n acc h; omega
  | succ f ih =>
    intro n acc h
    by_cases h10 : n < 10
    · refine ⟨1, fun a => ?_⟩
      simp only [writeNatAux, if_pos h10, pow_one]
      exact readDigits_digitChar a n h10 acc
    · obtain ⟨k, hk⟩ := ih (n / 10) (digitChar (n % 10) :: acc) (by omega)
      refine ⟨k + 1, fun a => ?_⟩
      simp only [writeNatAux, if_neg h10]
      rw [hk a, readDigits_digitChar _ _ (by omega)]
      congr 1
      rw [pow_succ]
      have := Nat.div_add_mod n 10
      nlinarith [this]

theorem writeNatAux_head (fuel : Nat) :
    ∀ (n : Nat) (acc : List Char), n < fuel →
      ∃ d tl, writeNatAux fuel n acc = d :: tl ∧ isDigit d = true := by
  induction fuel with
  | zero => intro n acc h; omega
  | succ f ih =>
    intro n acc h
    by_cases h10 : n < 10
    · exact ⟨digitChar n, acc, by simp [writeNatAux, h10], isDigit_digitChar n h10⟩
    · simp only [writeNatAux, if_neg h10]
      exact ih (n / 10) _ (by omega)

theorem writeNatAux_append (fuel : Nat) :
    ∀ (n : Nat) (acc rest : List Char),
      writeNatAux fuel n acc ++ rest = writeNatAux fuel n (acc ++ rest) := by
  induction fuel with
  | zero => intro n acc rest; rfl
  | succ f ih =>
    intro n acc rest
    by_cases h10 : n < 10
    · simp [writeNatAux, h10]
    · simp only [writeNatAux, if_neg h10]
      rw [ih]; rfl

theorem writeNat_head (n : Nat) : ∃ d tl, writeNat n = d :: tl ∧ isDigit d = true :=
  writeNatAux_head (n + 1) n [] (by omega)

/-- The input does not go on with a digit. -/
theorem readDigits_stop (a : Nat) (rest : List Char)
    (h : ∀ c tl, rest = c :: tl → isDigit c = false) : readDigits a rest = (a, rest) := by
  cases rest with
  | nil => rfl
  | cons c tl => simp [readDigits, h c tl rfl]

theorem readFraction_stop (a n : Nat) (rest : List Char)
    (h : ∀ c tl, rest = c :: tl → isDigit c = false) :
    readFraction a n rest = (a, n, rest) := by
  cases rest with
  | nil => rfl
  | cons c tl => simp [readFraction, h c tl rfl]

theorem readDigits_writeNat (n : Nat) (rest : List Char)
    (h : ∀ c tl, rest = c :: tl → isDigit c = false) :
    readDigits 0 (writeNat n ++ rest) = (n, rest) := by
  unfold writeNat
  rw [writeNatAux_append]
  obtain ⟨k, hk⟩ := readDigits_writeNatAux (n + 1) n ([] ++ rest) (by omega)
  rw [hk 0]
  simp [readDigits_stop _ _ h]

theorem readFraction_writeFixed (k : Nat) :
    ∀ (n a c : Nat) (rest : List Char),
      readFraction a c (writeFixed k n ++ rest)
        = readFraction (a * 10 ^ k + n % 10 ^ k) (c + k) rest := by
  induction k with
  | zero => intro n a c rest; simp [writeFixed, Nat.mod_one]
  | succ k ih =>
    intro n a c rest
    simp only [writeFixed, List.append_assoc, List.singleton_append]
    rw [ih, readFraction_digitChar _ _ _ (Nat.mod_lt _ (by omega))]
    have e : n % 10 ^ (k + 1) = n % 10 + 10 * (n / 10 % 10 ^ k) := by
      rw [pow_succ, Nat.mul_comm, Nat.mod_mul]
    rw [e]
    congr 1
    rw [pow_succ]
    ring

theorem writeFixed_head (k n : Nat) (rest : List Char) :
    ∃ d tl, writeFixed (k + 1) n ++ rest = d :: tl ∧ isDigit d = true := by
  induction k generalizing n rest with
  | zero =>
    exact ⟨digitChar (n % 10), rest, by simp [writeFixed],
      isDigit_digitChar _ (Nat.mod_lt _ (by omega))⟩
  | succ k ih =>
    obtain ⟨d, tl, h, hd⟩ := ih (n / 10) (digitChar (n % 10) :: rest)
    refine ⟨d, tl, ?_, hd⟩
    rw [← h]
    simp [writeFixed]

theorem Closes.not_digit {rest : List Char} (h : Closes rest) :
    ∀ c tl, rest = c :: tl → isDigit c = false := by
  intro c tl e
  rcases h c tl e with rfl | rfl | rfl <;> decide

theorem Closes.not_blank {rest : List Char} (h : Closes rest) : skipBlanks rest = rest := by
  cases rest with
  | nil => rfl
  | cons c tl =>
    have : isBlank c = false := by rcases h c tl rfl with rfl | rfl | rfl <;> decide
    simp [skipBlanks, this]

theorem Closes.comma (tl : List Char) : Closes (comma :: tl) := by
  intro c t e
  cases e
  exact Or.inl rfl

theorem Closes.rbrace (tl : List Char) : Closes (rbrace :: tl) := by
  intro c t e
  cases e
  exact Or.inr (Or.inl rfl)

theorem Closes.rbracket (tl : List Char) : Closes (rbracket :: tl) := by
  intro c t e
  cases e
  exact Or.inr (Or.inr rfl)

theorem Closes.nil : Closes [] := by
  intro c t e
  cases e

theorem readExponent_closes (m : Int) (k : Nat) (rest : List Char) (h : Closes rest) :
    readExponent m k rest = some (FJsonValue.Number m k, rest) := by
  cases rest with
  | nil => rfl
  | cons c tl =>
    have : isExponentMark c = false := by rcases h c tl rfl with rfl | rfl | rfl <;> decide
    simp [readExponent, this]

theorem readNumberTail_dot (negative : Bool) (w : Nat) (cs : List Char) (d : Char)
    (tl : List Char) (hcs : cs = d :: tl) (hd : isDigit d = true) :
    readNumberTail negative w (dot :: cs)
      = readExponent
          (if negative then
            -((w * 10 ^ (readFraction 0 0 cs).2.1 + (readFraction 0 0 cs).1 : Nat) : Int)
          else ((w * 10 ^ (readFraction 0 0 cs).2.1 + (readFraction 0 0 cs).1 : Nat) : Int))
          (readFraction 0 0 cs).2.1 (readFraction 0 0 cs).2.2 := by
  subst hcs
  simp [readNumberTail, hd]

theorem readNumberTail_write (negative : Bool) (w k f : Nat) (rest : List Char)
    (hf : f < 10 ^ k) (h : Closes rest) :
    readNumberTail negative w ((if k = 0 then [] else dot :: writeFixed k f) ++ rest)
      = some (FJsonValue.Number
          (if negative then -((w * 10 ^ k + f : Nat) : Int) else ((w * 10 ^ k + f : Nat) : Int)) k,
          rest) := by
  cases k with
  | zero =>
    have hf0 : f = 0 := by simpa using hf
    subst hf0
    cases rest with
    | nil => simp [readNumberTail]
    | cons c tl =>
      have hc : c ≠ dot := by rcases h c tl rfl with rfl | rfl | rfl <;> decide
      simp only [if_pos, List.nil_append, readNumberTail, if_neg hc]
      rw [readExponent_closes _ _ _ h]
      simp
  | succ k =>
    obtain ⟨d, tl, hh, hd⟩ := writeFixed_head k f rest
    simp only [Nat.succ_ne_zero, if_false, List.cons_append]
    rw [readNumberTail_dot negative w _ d tl hh hd, readFraction_writeFixed,
      readFraction_stop _ _ _ h.not_digit]
    simp only [Nat.zero_mul, Nat.zero_add, Nat.mod_eq_of_lt hf]
    exact readExponent_closes _ _ _ h

theorem readNumber_minus (cs : List Char) (d : Char) (tl : List Char) (hcs : cs = d :: tl)
    (hd : isDigit d = true) :
    readNumber (minus :: cs) = readNumberTail true (readDigits 0 cs).1 (readDigits 0 cs).2 := by
  subst hcs
  simp [readNumber, hd]

theorem isDigit_ne_minus (c : Char) (h : isDigit c = true) : c ≠ minus := by
  intro e
  subst e
  revert h
  decide

theorem readNumber_digit (cs : List Char) (d : Char) (tl : List Char) (hcs : cs = d :: tl)
    (hd : isDigit d = true) :
    readNumber cs = readNumberTail false (readDigits 0 cs).1 (readDigits 0 cs).2 := by
  subst hcs
  simp [readNumber, hd, isDigit_ne_minus d hd]

/-- The input behind the whole part of a written number does not go on with
a digit. -/
theorem fraction_no_digit (k f : Nat) (rest : List Char) (h : Closes rest) :
    ∀ c tl, (if k = 0 then [] else dot :: writeFixed k f) ++ rest = c :: tl →
      isDigit c = false := by
  intro c tl e
  by_cases hk : k = 0
  · simp only [if_pos hk, List.nil_append] at e
    exact h.not_digit c tl e
  · simp only [if_neg hk, List.cons_append] at e
    cases e
    decide

/-- A written number reads back. -/
theorem readNumber_writeNumber (m : Int) (k : Nat) (rest : List Char) (h : Closes rest) :
    readNumber (writeNumber m k ++ rest) = some (FJsonValue.Number m k, rest) := by
  have hpos : 0 < 10 ^ k := Nat.pow_pos (by decide)
  have hf : m.natAbs % 10 ^ k < 10 ^ k := Nat.mod_lt _ hpos
  have hsum : m.natAbs / 10 ^ k * 10 ^ k + m.natAbs % 10 ^ k = m.natAbs :=
    Nat.div_add_mod' _ _
  obtain ⟨d, tl, hh, hd⟩ := writeNat_head (m.natAbs / 10 ^ k)
  have hdig := readDigits_writeNat (m.natAbs / 10 ^ k) _
    (fraction_no_digit k (m.natAbs % 10 ^ k) rest h)
  unfold writeNumber
  by_cases hm : m < 0
  · simp only [if_pos hm, List.cons_append, List.nil_append, List.append_assoc]
    rw [readNumber_minus _ d (tl ++ ((if k = 0 then [] else dot :: writeFixed k (m.natAbs % 10 ^ k)) ++ rest))
      (by rw [hh]; rfl) hd, hdig]
    simp only
    rw [readNumberTail_write true _ k _ rest hf h, hsum]
    simp only [if_true]
    have : -((m.natAbs : Nat) : Int) = m := by omega
    rw [this]
  · simp only [if_neg hm, List.nil_append, List.append_assoc]
    rw [readNumber_digit _ d (tl ++ ((if k = 0 then [] else dot :: writeFixed k (m.natAbs % 10 ^ k)) ++ rest))
      (by rw [hh]; rfl) hd, hdig]
    simp only
    rw [readNumberTail_write false _ k _ rest hf h, hsum]
    have : ((m.natAbs : Nat) : Int) = m := by omega
    simp [this]

/-- A written number starts with a sign or a digit. -/
theorem writeNumber_head (m : Int) (k : Nat) (rest : List Char) :
    ∃ c tl, writeNumber m k ++ rest = c :: tl ∧ (c = minus ∨ isDigit c = true) := by
  obtain ⟨d, tl, hh, hd⟩ := writeNat_head (m.natAbs / 10 ^ k)
  unfold writeNumber
  by_cases hm : m < 0
  · refine ⟨minus, writeNat (m.natAbs / 10 ^ k)
      ++ (if k = 0 then [] else dot :: writeFixed k (m.natAbs % 10 ^ k)) ++ rest, ?_, Or.inl rfl⟩
    simp [if_pos hm]
  · refine ⟨d, tl ++ (if k = 0 then [] else dot :: writeFixed k (m.natAbs % 10 ^ k)) ++ rest,
      ?_, Or.inr hd⟩
    simp [if_neg hm, hh]

theorem isBlank_of_digit (c : Char) (h : c = minus ∨ isDigit c = true) :
    isBlank c = false ∧ c ≠ dquote ∧ c ≠ lbrace ∧ c ≠ lbracket ∧ c ≠ rbracket ∧ c ≠ rbrace := by
  rcases h with rfl | h
  · decide
  · have h2 : 48 ≤ c.toNat ∧ c.toNat ≤ 57 := by simpa [isDigit] using h
    refine ⟨?_, ?_, ?_, ?_, ?_, ?_⟩
    · simp only [isBlank, Bool.or_eq_false_iff, decide_eq_false_iff_not]
      omega
    all_goals
      intro e
      subst e
      revert h
      decide

/-- A written value starts with a character that is neither blank nor a
closing bracket or brace. -/
theorem writeValue_head (v : FJsonValue) (rest : List Char) :
    ∃ c tl, writeValue v ++ rest = c :: tl ∧ isBlank c = false ∧ c ≠ rbracket ∧ c ≠ rbrace := by
  cases v with
  | Null => exact ⟨_, _, rfl, by decide, by decide, by decide⟩
  | Boolean b => cases b <;> exact ⟨_, _, rfl, by decide, by decide, by decide⟩
  | Number m k =>
    obtain ⟨c, tl, e, h⟩ := writeNumber_head m k rest
    have := isBlank_of_digit c h
    exact ⟨c, tl, by rw [writeValue, e], this.1, this.2.2.2.2.1, this.2.2.2.2.2⟩
  | Text s => exact ⟨dquote, _, by rw [writeValue, writeString]; rfl, by decide, by decide, by decide⟩
  | Array items => exact ⟨lbracket, _, by rw [writeValue]; rfl, by decide, by decide, by decide⟩
  | Object es => exact ⟨lbrace, _, by rw [writeValue]; rfl, by decide, by decide, by decide⟩

theorem readValue_number (fuel : Nat) (m : Int) (k : Nat) (rest : List Char) (h : Closes rest) :
    readValue (fuel + 1) (writeNumber m k ++ rest) = some (FJsonValue.Number m k, rest) := by
  obtain ⟨c, tl, e, hc⟩ := writeNumber_head m k rest
  obtain ⟨h1, h2, h3, h4, _, _⟩ := isBlank_of_digit c hc
  rw [← readNumber_writeNumber m k rest h, e]
  have hc2 : c = minus ∨ isDigit c = true := hc
  simp only [readValue, skipBlanks, h1, Bool.false_eq_true, if_false]
  rw [if_neg h2, if_neg h3, if_neg h4, if_pos hc2]

theorem readValue_text (fuel : Nat) (s : FString) (rest : List Char) :
    readValue (fuel + 1) (writeString s ++ rest) = some (FJsonValue.Text s, rest) := by
  obtain ⟨tl, e, h⟩ := readString_writeString s rest
  have hb : isBlank dquote = false := by decide
  rw [e]
  simp [readValue, skipBlanks, hb, h]

theorem readValue_null (fuel : Nat) (rest : List Char) :
    readValue (fuel + 1) ("null".toList ++ rest) = some (FJsonValue.Null, rest) := by
  simp [readValue, skipBlanks, isBlank, readWord, dropWord, dquote, lbrace, lbracket, minus,
    isDigit]

theorem readValue_true (fuel : Nat) (rest : List Char) :
    readValue (fuel + 1) ("true".toList ++ rest) = some (FJsonValue.Boolean true, rest) := by
  simp [readValue, skipBlanks, isBlank, readWord, dropWord, dquote, lbrace, lbracket, minus,
    isDigit]

theorem readValue_false (fuel : Nat) (rest : List Char) :
    readValue (fuel + 1) ("false".toList ++ rest) = some (FJsonValue.Boolean false, rest) := by
  simp [readValue, skipBlanks, isBlank, readWord, dropWord, dquote, lbrace, lbracket, minus,
    isDigit]


theorem readValue_lbrace (fuel : Nat) (r : List Char) :
    readValue (fuel + 1) (lbrace :: r)
      = match skipBlanks r with
        | [] => none
        | d :: r2 =>
          if d = rbrace then some (FJsonValue.Object [], r2)
          else (readEntries fuel (d :: r2)).map fun p => (FJsonValue.Object p.1, p.2) := by
  have hb : isBlank lbrace = false := by decide
  have h1 : lbrace ≠ dquote := by decide
  simp only [readValue, skipBlanks, hb, Bool.false_eq_true, if_false]
  rw [if_neg h1]
  simp only [if_true]

theorem readValue_lbracket (fuel : Nat) (r : List Char) :
    readValue (fuel + 1) (lbracket :: r)
      = match skipBlanks r with
        | [] => none
        | d :: r2 =>
          if d = rbracket then some (FJsonValue.Array [], r2)
          else (readItems fuel (d :: r2)).map fun p => (FJsonValue.Array p.1, p.2) := by
  have hb : isBlank lbracket = false := by decide
  have h1 : lbracket ≠ dquote := by decide
  have h2 : lbracket ≠ lbrace := by decide
  simp only [readValue, skipBlanks, hb, Bool.false_eq_true, if_false]
  rw [if_neg h1, if_neg h2]
  simp only [if_true]

/-- The entries behind the first close the value before them. -/
theorem writeEntriesTail_closes (es : List (FString × FJsonValue)) (rest : List Char) :
    Closes (writeEntriesTail es ++ rbrace :: rest) := by
  cases es with
  | nil => exact Closes.rbrace rest
  | cons e es =>
    obtain ⟨k, v⟩ := e
    rw [writeEntriesTail]
    exact Closes.comma _

theorem writeItemsTail_closes (vs : List FJsonValue) (rest : List Char) :
    Closes (writeItemsTail vs ++ rbracket :: rest) := by
  cases vs with
  | nil => exact Closes.rbracket rest
  | cons v vs =>
    rw [writeItemsTail]
    exact Closes.comma _

/-- Written values, items and entries read back when the fuel is at least
their number of nodes. -/
theorem readsBack (fuel : Nat) : ReadsBack fuel := by
  induction fuel with
  | zero =>
    refine ⟨?_, ?_, ?_⟩
    · intro v rest h
      cases v <;> simp [JsonSize] at h
    · intro v vs rest h
      simp [ItemsSize] at h
    · intro k v es rest h
      simp [EntriesSize] at h
  | succ f ih =>
    obtain ⟨ihv, ihi, ihe⟩ := ih
    refine ⟨?_, ?_, ?_⟩
    · intro v rest h hc
      cases v with
      | Null => exact readValue_null f rest
      | Boolean b =>
        cases b
        · exact readValue_false f rest
        · exact readValue_true f rest
      | Number m k => exact readValue_number f m k rest hc
      | Text s => exact readValue_text f s rest
      | Array items =>
        have e : writeValue (FJsonValue.Array items) ++ rest
            = lbracket :: (writeItems items ++ rbracket :: rest) := by
          rw [writeValue]; simp
        rw [e, readValue_lbracket]
        cases items with
        | nil =>
          have hb : isBlank rbracket = false := by decide
          simp [writeItems, skipBlanks, hb]
        | cons v vs =>
          have hs : ItemsSize (v :: vs) ≤ f := by
            simp only [JsonSize] at h
            omega
          have e2 : writeItems (v :: vs) ++ rbracket :: rest
              = writeValue v ++ (writeItemsTail vs ++ rbracket :: rest) := by
            rw [writeItems]; simp
          obtain ⟨c, tl, hh, hb, hne, _⟩ :=
            writeValue_head v (writeItemsTail vs ++ rbracket :: rest)
          rw [e2, hh]
          simp only [skipBlanks, hb, Bool.false_eq_true, if_false, if_neg hne]
          rw [← hh, ihi v vs rest hs]
          rfl
      | Object es =>
        have e : writeValue (FJsonValue.Object es) ++ rest
            = lbrace :: (writeEntries es ++ rbrace :: rest) := by
          rw [writeValue]; simp
        rw [e, readValue_lbrace]
        cases es with
        | nil =>
          have hb : isBlank rbrace = false := by decide
          simp [writeEntries, skipBlanks, hb]
        | cons kv es =>
          obtain ⟨k, v⟩ := kv
          have hs : EntriesSize ((k, v) :: es) ≤ f := by
            simp only [JsonSize] at h
            omega
          have e2 : writeEntries ((k, v) :: es) ++ rbrace :: rest
              = writeString k ++ colon :: (writeValue v
                ++ (writeEntriesTail es ++ rbrace :: rest)) := by
            rw [writeEntries]; simp
          have hh : writeString k ++ colon :: (writeValue v
                ++ (writeEntriesTail es ++ rbrace :: rest))
              = dquote :: (escape k.toList ++ dquote :: colon :: (writeValue v
                ++ (writeEntriesTail es ++ rbrace :: rest))) := by
            simp [writeString]
          have hb : isBlank dquote = false := by decide
          have hne : dquote ≠ rbrace := by decide
          rw [e2, hh]
          simp only [skipBlanks, hb, Bool.false_eq_true, if_false, if_neg hne]
          rw [← hh, ihe k v es rest hs]
          rfl
    · intro v vs rest h
      have hv : JsonSize v ≤ f := by
        simp only [ItemsSize] at h
        omega
      have hc := writeItemsTail_closes vs rest
      rw [readItems, ihv v _ hv hc]
      simp only
      rw [hc.not_blank]
      cases vs with
      | nil => simp [writeItemsTail]
      | cons v2 vs =>
        have hs : ItemsSize (v2 :: vs) ≤ f := by
          simp only [ItemsSize] at h ⊢
          omega
        have hne : comma ≠ rbracket := by decide
        simp only [writeItemsTail, List.cons_append, if_neg hne, if_true, List.append_assoc]
        rw [ihi v2 vs rest hs]
        rfl
    · intro k v es rest h
      have hv : JsonSize v ≤ f := by
        simp only [EntriesSize] at h
        omega
      have hc := writeEntriesTail_closes es rest
      have hh : writeString k ++ colon :: (writeValue v
            ++ (writeEntriesTail es ++ rbrace :: rest))
          = dquote :: (escape k.toList ++ dquote :: colon :: (writeValue v
            ++ (writeEntriesTail es ++ rbrace :: rest))) := by
        simp [writeString]
      have hb : isBlank dquote = false := by decide
      have hb2 : isBlank colon = false := by decide
      rw [hh, readEntries]
      simp only [skipBlanks, hb, if_true, readString_escape, hb2, Bool.false_eq_true, if_false]
      rw [ihv v _ hv hc]
      simp only
      rw [hc.not_blank]
      cases es with
      | nil => simp [writeEntriesTail]
      | cons kv es =>
        obtain ⟨k2, v2⟩ := kv
        have hs : EntriesSize ((k2, v2) :: es) ≤ f := by
          simp only [EntriesSize] at h ⊢
          omega
        have hne : comma ≠ rbrace := by decide
        simp only [writeEntriesTail, List.cons_append, if_neg hne, if_true, List.append_assoc]
        rw [ihe k2 v2 es rest hs]
        rfl

theorem writeNumber_length (m : Int) (k : Nat) : 1 ≤ (writeNumber m k).length := by
  obtain ⟨c, tl, e, _⟩ := writeNumber_head m k []
  rw [List.append_nil] at e
  rw [e]
  simp

mutual
theorem JsonSize_le : (v : FJsonValue) → JsonSize v ≤ (writeValue v).length
  | .Null => by decide
  | .Boolean true => by decide
  | .Boolean false => by decide
  | .Number m k => by
    have := writeNumber_length m k
    simpa [JsonSize, writeValue] using this
  | .Text s => by simp [JsonSize, writeValue, writeString]
  | .Array items => by
    have := (ItemsSize_le items).2
    simp only [JsonSize, writeValue, List.length_cons, List.length_append, List.length_nil]
    omega
  | .Object es => by
    have := (EntriesSize_le es).2
    simp only [JsonSize, writeValue, List.length_cons, List.length_append, List.length_nil]
    omega
theorem ItemsSize_le : (vs : List FJsonValue) →
    ItemsSize vs ≤ (writeItemsTail vs).length ∧ ItemsSize vs ≤ (writeItems vs).length + 1
  | [] => by simp [ItemsSize]
  | v :: vs => by
    have h1 := JsonSize_le v
    have h2 := (ItemsSize_le vs).1
    simp only [ItemsSize, writeItemsTail, writeItems, List.length_cons, List.length_append]
    omega
theorem EntriesSize_le : (es : List (FString × FJsonValue)) →
    EntriesSize es ≤ (writeEntriesTail es).length ∧ EntriesSize es ≤ (writeEntries es).length + 1
  | [] => by simp [EntriesSize]
  | (k, v) :: es => by
    have h1 := JsonSize_le v
    have h2 := (EntriesSize_le es).1
    simp only [EntriesSize, writeEntriesTail, writeEntries, List.length_cons, List.length_append]
    omega
end

/-- The text of an object parses back to the object. -/
theorem TextToJsonObject_JsonObjectToText (J : FJsonObject) :
    TextToJsonObject (JsonObjectToText J) = some J := by
  have hs := JsonSize_le (FJsonValue.Object J)
  have h := (readsBack ((writeValue (FJsonValue.Object J)).length + 1)).1
    (FJsonValue.Object J) [] (by omega) Closes.nil
  rw [List.append_nil] at h
  unfold TextToJsonObject JsonObjectToText
  simp only [String.length, String.toList]
  rw [h]
  simp [skipBlanks]

/-! ### Field conversion of the specification engine -/

theorem lookup_cons_ne (k a : FString) (b : FJsonValue) (es : FJsonObject) (h : k ≠ a) :
    List.lookup k ((a, b) :: es) = List.lookup k es := by
  have hb : (k == a) = false := by simp [h]
  rw [List.lookup_cons, hb]

theorem lookup_cons_self (k : FString) (b : FJsonValue) (es : FJsonObject) :
    List.lookup k ((k, b) :: es) = some b := by
  simp [List.lookup_cons]

theorem lookup_append_of_none (k : FString) (pre J : FJsonObject) (h : pre.lookup k = none) :
    (pre ++ J).lookup k = J.lookup k := by
  induction pre with
  | nil => rfl
  | cons e pre ih =>
    obtain ⟨a, b⟩ := e
    by_cases hk : k = a
    · subst hk
      rw [lookup_cons_self] at h
      cases h
    · rw [lookup_cons_ne _ _ _ _ hk] at h
      rw [List.cons_append, lookup_cons_ne _ _ _ _ hk]
      exact ih h

theorem lookup_append_singleton (k a : FString) (b : FJsonValue) (pre : FJsonObject)
    (h : pre.lookup k = none) (hk : k ≠ a) : (pre ++ [(a, b)]).lookup k = none := by
  rw [lookup_append_of_none _ _ _ h, lookup_cons_ne _ _ _ _ hk]
  rfl

mutual
/-- The zero-initialised value of a type is of that type. -/
theorem HasType_DefaultValue : (T : EFieldType) → HasType T (DefaultValue T)
  | .Integer => by simp [DefaultValue, HasType]
  | .Text => by simp [DefaultValue, HasType]
  | .Unmapped => by simp [DefaultValue, HasType]
  | .Boolean => by simp [DefaultValue, HasType]
  | .Decimal => by simp [DefaultValue, HasType]
  | .Array T => by simp [DefaultValue, HasType]
  | .Struct ps => by
    have := Conforms_DefaultFields ps
    simpa [DefaultValue, HasType] using this
theorem Conforms_DefaultFields : (ps : List FProperty) → Conforms ps (DefaultFields ps)
  | [] => by simp [DefaultFields, Conforms]
  | ⟨n, T⟩ :: ps => by
    have h1 := HasType_DefaultValue T
    have h2 := Conforms_DefaultFields ps
    simp only [DefaultFields, Conforms]
    exact ⟨h1, h2⟩
end

/-- Exporting every item of an array and importing the result into
zero-initialised values gives the items back, when it does so for each item. -/
theorem mapAll_roundtrip (T : EFieldType)
    (h : ∀ v d, HasType T v → HasType T d →
      ∃ j, ExportField T v = some j ∧ ImportField T j d = some v) :
    ∀ items : List FieldValue, (∀ x ∈ items, HasType T x) →
      ∃ js, mapAll (fun v => ExportField T v) items = some js
        ∧ mapAll (fun j => ImportField T j (DefaultValue T)) js = some items := by
  intro items
  induction items with
  | nil => intro _; exact ⟨[], rfl, rfl⟩
  | cons x xs ih =>
    intro hx
    obtain ⟨j, hj, hi⟩ := h x (DefaultValue T) (hx x (List.mem_cons_self _ _))
      (HasType_DefaultValue T)
    obtain ⟨js, h1, h2⟩ := ih (fun y hy => hx y (List.mem_cons_of_mem _ hy))
    exact ⟨j :: js, by simp [mapAll, hj, h1], by simp [mapAll, hi, h2]⟩

mutual
/-- A value of a mapped type exports, and the exported value imports back to
it, whatever the destination held. -/
theorem ImportField_ExportField : (T : EFieldType) → (v d : FieldValue) →
    Mapped T → DistinctNames T → HasType T v → HasType T d →
    ∃ j, ExportField T v = some j ∧ ImportField T j d = some v
  | .Integer, v, d, _, _, hv, _ => by
    cases v <;> simp [HasType] at hv
    exact ⟨_, rfl, rfl⟩
  | .Text, v, d, _, _, hv, _ => by
    cases v <;> simp [HasType] at hv
    exact ⟨_, rfl, rfl⟩
  | .Boolean, v, d, _, _, hv, _ => by
    cases v <;> simp [HasType] at hv
    exact ⟨_, rfl, rfl⟩
  | .Decimal, v, d, _, _, hv, _ => by
    cases v <;> simp [HasType] at hv
    exact ⟨_, rfl, rfl⟩
  | .Unmapped, _, _, hm, _, _, _ => by simp [Mapped] at hm
  | .Array T, v, d, hm, hn, hv, _ => by
    cases v <;> simp only [HasType] at hv
    rename_i items
    have hm2 : Mapped T := by simpa [Mapped] using hm
    have hn2 : DistinctNames T := by simpa [DistinctNames] using hn
    obtain ⟨js, h1, h2⟩ := mapAll_roundtrip T
      (fun v d hv hd => ImportField_ExportField T v d hm2 hn2 hv hd) items hv
    exact ⟨FJsonValue.Array js, by simp [ExportField, h1], by simp [ImportField, h2]⟩
  | .Struct ps, v, d, hm, hn, hv, hd => by
    cases v <;> simp only [HasType] at hv
    cases d <;> simp only [HasType] at hd
    rename_i vs ds
    have hm2 : MappedFields ps := by simpa [Mapped] using hm
    have hn2 : (ps.map fun p => p.Name).Nodup ∧ DistinctFieldNames ps := by
      simpa [DistinctNames] using hn
    obtain ⟨J, h1, h2⟩ := UStructToJsonObject_roundtrip ps vs ds hm2 hn2.2 hn2.1 hv hd
    refine ⟨FJsonValue.Object J, by simp [ExportField, h1], ?_⟩
    have := h2 [] (fun _ _ => rfl)
    simp only [List.nil_append] at this
    simp [ImportField, this]
/-- A record of a representable type exports to an object from which, also
behind entries under other names, every field imports back. -/
theorem UStructToJsonObject_roundtrip : (ps : List FProperty) → (vs ds : StructMemory) →
    MappedFields ps → DistinctFieldNames ps → (ps.map fun p => p.Name).Nodup →
    Conforms ps vs → Conforms ps ds →
    ∃ J, UStructToJsonObject ps vs = some J
      ∧ ∀ pre : FJsonObject, (∀ p ∈ ps, pre.lookup p.Name = none) →
          JsonObjectToFields (pre ++ J) ps ds = (true, vs)
  | [], vs, ds, _, _, _, hv, hd => by
    cases vs <;> simp only [Conforms] at hv
    cases ds <;> simp only [Conforms] at hd
    exact ⟨[], rfl, fun pre _ => by simp [JsonObjectToFields]⟩
  | ⟨n, T⟩ :: ps, vs, ds, hm, hn, hnd, hv, hd => by
    cases vs <;> simp only [Conforms] at hv
    cases ds <;> simp only [Conforms] at hd
    rename_i v vs d ds
    have hm2 : Mapped T ∧ MappedFields ps := by simpa [MappedFields] using hm
    have hn2 : DistinctNames T ∧ DistinctFieldNames ps := by simpa [DistinctFieldNames] using hn
    have hnd2 : n ∉ (ps.map fun p => p.Name) ∧ (ps.map fun p => p.Name).Nodup := by
      simpa using hnd
    obtain ⟨j, hj, hi⟩ := ImportField_ExportField T v d hm2.1 hn2.1 hv.1 hd.1
    obtain ⟨J, hJ, hback⟩ := UStructToJsonObject_roundtrip ps vs ds hm2.2 hn2.2 hnd2.2 hv.2 hd.2
    refine ⟨(n, j) :: J, by simp [UStructToJsonObject, hj, hJ], ?_⟩
    intro pre hpre
    have hl : (pre ++ (n, j) :: J).lookup n = some j := by
      rw [lookup_append_of_none _ _ _ (hpre ⟨n, T⟩ (List.mem_cons_self _ _)), lookup_cons_self]
    have hrec : JsonObjectToFields (pre ++ (n, j) :: J) ps ds = (true, vs) := by
      have := hback (pre ++ [(n, j)]) (by
        intro p hp
        apply lookup_append_singleton _ _ _ _ (hpre p (List.mem_cons_of_mem _ hp))
        intro e
        exact hnd2.1 (by rw [← e]; exact List.mem_map_of_mem _ hp))
      simpa using this
    rw [JsonObjectToFields]
    simp only [hl, hi, hrec]
end

theorem forall₂_getElem {α β : Type} {R : α → β → Prop} {a : List α} {b : List β}
    (h : List.Forall₂ R a b) :
    ∀ (i : Nat) (x : α) (y : β), a[i]? = some x → b[i]? = some y → R x y := by
  induction h with
  | nil => intro i x y hx; simp at hx
  | cons hxy _ ih =>
    intro i x y hx hy
    cases i with
    | zero =>
      simp only [List.getElem?_cons_zero, Option.some.injEq] at hx hy
      subst hx
      subst hy
      exact hxy
    | succ i =>
      simp only [List.getElem?_cons_succ] at hx hy
      exact ih i x y hx hy

/-- Importing every item of an array into zero-initialised values and
exporting the result gives items with the same content, when it does so for
each item. -/
theorem mapAll_reencode (T : EFieldType)
    (h : ∀ j d, Fits T j → HasType T d →
      ∃ w j2, ImportField T j d = some w ∧ HasType T w ∧ ExportField T w = some j2
        ∧ JsonSame j2 j) :
    ∀ js : List FJsonValue, (∀ j ∈ js, Fits T j) →
      ∃ ws js2, mapAll (fun j => ImportField T j (DefaultValue T)) js = some ws
        ∧ (∀ w ∈ ws, HasType T w)
        ∧ mapAll (fun v => ExportField T v) ws = some js2
        ∧ List.Forall₂ JsonSame js2 js := by
  intro js
  induction js with
  | nil => intro _; exact ⟨[], [], rfl, by simp, rfl, List.Forall₂.nil⟩
  | cons j js ih =>
    intro hj
    obtain ⟨w, j2, h1, h2, h3, h4⟩ := h j (DefaultValue T) (hj j (List.mem_cons_self _ _))
      (HasType_DefaultValue T)
    obtain ⟨ws, js2, g1, g2, g3, g4⟩ := ih (fun y hy => hj y (List.mem_cons_of_mem _ hy))
    refine ⟨w :: ws, j2 :: js2, by simp [mapAll, h1, g1], ?_, by simp [mapAll, h3, g3],
      List.Forall₂.cons h4 g4⟩
    intro x hx
    rcases List.mem_cons.mp hx with rfl | hx
    · exact h2
    · exact g2 x hx

mutual
/-- A value of the intermediate representation that fits a type imports, and
the imported value exports to a value with the same content. -/
theorem ExportField_ImportField : (T : EFieldType) → (j : FJsonValue) → (d : FieldValue) →
    Fits T j → HasType T d →
    ∃ w j2, ImportField T j d = some w ∧ HasType T w ∧ ExportField T w = some j2
      ∧ JsonSame j2 j
  | .Integer, j, d, hf, _ => by
    cases j with
    | Number m k =>
      cases k with
      | zero => exact ⟨FieldValue.Integer m, FJsonValue.Number m 0, rfl, by simp [HasType], rfl,
          JsonSame.number m 0⟩
      | succ k => simp [Fits] at hf
    | _ => simp [Fits] at hf
  | .Text, j, d, hf, _ => by
    cases j with
    | Text s => exact ⟨FieldValue.Text s, FJsonValue.Text s, rfl, by simp [HasType], rfl,
        JsonSame.text s⟩
    | _ => simp [Fits] at hf
  | .Boolean, j, d, hf, _ => by
    cases j with
    | Boolean b => exact ⟨FieldValue.Boolean b, FJsonValue.Boolean b, rfl, by simp [HasType], rfl,
        JsonSame.boolean b⟩
    | _ => simp [Fits] at hf
  | .Decimal, j, d, hf, _ => by
    cases j with
    | Number m k => exact ⟨FieldValue.Decimal m k, FJsonValue.Number m k, rfl,
        by simp [HasType], rfl, JsonSame.number m k⟩
    | _ => simp [Fits] at hf
  | .Unmapped, j, _, hf, _ => by
    cases j <;> simp [Fits] at hf
  | .Array T, j, d, hf, _ => by
    cases j with
    | Array js =>
      simp only [Fits] at hf
      obtain ⟨ws, js2, h1, h2, h3, h4⟩ := mapAll_reencode T
        (fun j d hj hd => ExportField_ImportField T j d hj hd) js hf
      refine ⟨FieldValue.Array ws, FJsonValue.Array js2, by simp [ImportField, h1],
        by simpa [HasType] using h2, by simp [ExportField, h3], ?_⟩
      exact JsonSame.array js2 js h4.length_eq (forall₂_getElem h4)
    | _ => simp [Fits] at hf
  | .Struct ps, j, d, hf, hd => by
    cases d <;> simp only [HasType] at hd
    rename_i ds
    cases j with
    | Object es =>
      simp only [Fits] at hf
      obtain ⟨ws, J2, h1, h2, h3, h4, h5⟩ := UStructToJsonObject_JsonObjectToFields ps es ds hf.1 hd
      refine ⟨FieldValue.Struct ws, FJsonValue.Object J2, by simp [ImportField, h1],
        by simpa [HasType] using h2, by simp [ExportField, h3], ?_⟩
      apply JsonSame.object
      · intro k
        by_cases hk : k ∈ (ps.map fun p => p.Name)
        · obtain ⟨x, y, hx, hy, _⟩ := h4 k hk
          simp [hx, hy]
        · simp [h5 k hk, hf.2 k hk]
      · intro k x y hx hy
        by_cases hk : k ∈ (ps.map fun p => p.Name)
        · obtain ⟨x2, y2, hx2, hy2, hs⟩ := h4 k hk
          rw [hx] at hx2
          rw [hy] at hy2
          cases hx2
          cases hy2
          exact hs
        · rw [h5 k hk] at hx
          cases hx
    | _ => simp [Fits] at hf
/-- An object with a fitting entry for every field of a record type decodes
to a record that encodes to an object with the same content under the field
names, and nothing under other names. -/
theorem UStructToJsonObject_JsonObjectToFields : (ps : List FProperty) → (J : FJsonObject) →
    (ds : StructMemory) → FitsFields ps J → Conforms ps ds →
    ∃ ws J2, (JsonObjectToFields J ps ds).2 = ws ∧ Conforms ps ws
      ∧ UStructToJsonObject ps ws = some J2
      ∧ (∀ k, k ∈ (ps.map fun p => p.Name) →
          ∃ x y, J2.lookup k = some x ∧ J.lookup k = some y ∧ JsonSame x y)
      ∧ (∀ k, k ∉ (ps.map fun p => p.Name) → J2.lookup k = none)
  | [], J, ds, _, hd => by
    cases ds <;> simp only [Conforms] at hd
    exact ⟨[], [], by simp [JsonObjectToFields], by simp [Conforms], rfl, by simp, by simp⟩
  | ⟨n, T⟩ :: ps, J, ds, hf, hd => by
    cases ds <;> simp only [Conforms] at hd
    rename_i d ds
    simp only [FitsFields] at hf
    obtain ⟨⟨j, hl, hfit⟩, hrest⟩ := hf
    obtain ⟨w, j2, h1, h2, h3, h4⟩ := ExportField_ImportField T j d hfit hd.1
    obtain ⟨ws, J2, g1, g2, g3, g4, g5⟩ :=
      UStructToJsonObject_JsonObjectToFields ps J ds hrest hd.2
    refine ⟨w :: ws, (n, j2) :: J2, ?_, ?_, ?_, ?_, ?_⟩
    · rw [JsonObjectToFields]
      simp only [hl, h1, g1]
    · simp only [Conforms]
      exact ⟨h2, g2⟩
    · simp [UStructToJsonObject, h3, g3]
    · intro k hk
      by_cases hkn : k = n
      · subst hkn
        exact ⟨j2, j, lookup_cons_self _ _ _, hl, h4⟩
      · rw [lookup_cons_ne _ _ _ _ hkn]
        apply g4 k
        simpa [hkn] using hk
    · intro k hk
      have hkn : k ≠ n := fun e => hk (by simp [e])
      rw [lookup_cons_ne _ _ _ _ hkn]
      apply g5 k
      intro hmem
      exact hk (by simp only [List.map_cons, List.mem_cons]; exact Or.inr hmem)
end

theorem JsonObjectToFields_nil (ps : List FProperty) (vs : StructMemory) :
    JsonObjectToFields [] ps vs = (true, vs) := by
  induction ps generalizing vs with
  | nil => cases vs <;> simp [JsonObjectToFields]
  | cons p ps ih =>
    obtain ⟨n, T⟩ := p
    cases vs with
    | nil => simp [JsonObjectToFields]
    | cons v vs => simp [JsonObjectToFields, ih]

theorem JsonObjectToFields_absent (J : FJsonObject) (ps : List FProperty) :
    ∀ (vs : StructMemory) (i : Nat) (p : FProperty), ps[i]? = some p →
      J.lookup p.Name = none → (JsonObjectToFields J ps vs).2[i]? = vs[i]? := by
  induction ps with
  | nil => intro vs i p h; simp at h
  | cons q qs ih =>
    intro vs i p h hl
    obtain ⟨n, T⟩ := q
    cases vs with
    | nil => simp [JsonObjectToFields]
    | cons v vs =>
      cases i with
      | zero =>
        simp only [List.getElem?_cons_zero, Option.some.injEq] at h
        subst h
        simp [JsonObjectToFields, hl]
      | succ i =>
        simp only [List.getElem?_cons_succ] at h
        have := ih vs i p h hl
        simp only [JsonObjectToFields]
        split
        · simpa using this
        · split <;> simpa using this

theorem JsonObjectToFields_present (J : FJsonObject) (ps : List FProperty) :
    ∀ (vs : StructMemory) (i : Nat) (p : FProperty) (j : FJsonValue) (v w : FieldValue),
      ps[i]? = some p → J.lookup p.Name = some j → vs[i]? = some v →
      ImportField p.Kind j v = some w → (JsonObjectToFields J ps vs).2[i]? = some w := by
  induction ps with
  | nil => intro vs i p j v w h; simp at h
  | cons q qs ih =>
    intro vs i p j v0 w h hl hv hi
    obtain ⟨n, T⟩ := q
    cases vs with
    | nil => simp at hv
    | cons v vs =>
      cases i with
      | zero =>
        simp only [List.getElem?_cons_zero, Option.some.injEq] at h hv
        subst h
        subst hv
        simp [JsonObjectToFields, hl, hi]
      | succ i =>
        simp only [List.getElem?_cons_succ] at h hv
        have := ih vs i p j v0 w h hl hv hi
        simp only [JsonObjectToFields]
        split
        · simpa using this
        · split <;> simpa using this

theorem lookup_none_of_not_mem (J : FJsonObject) (k : FString)
    (h : k ∉ J.map Prod.fst) : J.lookup k = none := by
  induction J with
  | nil => rfl
  | cons e J ih =>
    obtain ⟨a, b⟩ := e
    have hk : k ≠ a := fun e => h (by simp [e])
    rw [lookup_cons_ne _ _ _ _ hk]
    exact ih (fun hm => h (by simp only [List.map_cons, List.mem_cons]; exact Or.inr hm))

/-! ### The thunks over an arbitrary engine -/

/-- No path of `execSerializeStruct` surfaces a failure. -/
theorem execSerializeStruct_error (E : Engine) (Struct : Option FStructProperty)
    (StructValue : StructMemory) (Data : TArray uint8) :
    (execSerializeStruct E Struct StructValue Data).error = none := by
  cases Struct <;> rfl

/-- No path of `execDeSerializeStruct` surfaces a failure. -/
theorem execDeSerializeStruct_error (E : Engine) (Data : TArray uint8)
    (Struct : Option FStructProperty) (StructValue : StructMemory) :
    (execDeSerializeStruct E Data Struct StructValue).error = none := by
  cases Struct <;> rfl

/-! ### The thunks on the specification engine -/

/-- What `execSerializeStruct` writes on the specification engine for a
record the converter exports. -/
theorem execSerializeStruct_specEngine (Struct : FStructProperty) (R : StructMemory)
    (Data : TArray uint8) (J : FJsonObject)
    (h : UStructToJsonObject Struct.Struct.Properties R = some J) :
    BytesToString specEngine (execSerializeStruct specEngine (some Struct) R Data).out
      = JsonObjectToText J := by
  have e : (execSerializeStruct specEngine (some Struct) R Data).out
      = StringToBytes specEngine (JsonObjectToText J) := by
    simp [execSerializeStruct, specEngine, h]
  rw [e, specEngine_bytes_roundtrip]

/-- What `execDeSerializeStruct` leaves on the specification engine when the
text of the buffer parses. -/
theorem execDeSerializeStruct_specEngine (Data : TArray uint8) (Struct : FStructProperty)
    (D : StructMemory) (J : FJsonObject)
    (h : TextToJsonObject (BytesToString specEngine Data) = some J) :
    (execDeSerializeStruct specEngine Data (some Struct) D).out
      = (JsonObjectToFields J Struct.Struct.Properties D).2 := by
  have h2 : TextToJsonObject (specEngine.LoadFString Data "") = some J := h
  simp [execDeSerializeStruct, BytesToString, specEngine] at h2 ⊢
  simp [h2]

/-! ### Claims -/

/-- C1: on the specification engine, for every record `R` of a record type
whose field types all have a mapping into the intermediate representation, at
every level of nesting (and whose record types have distinct field names),
decoding the buffer `execSerializeStruct` produced for `R` with
`execDeSerializeStruct` into a record `D` of the same type yields `R`,
whatever `D` and the caller's buffer held before. -/
theorem deserialize_serialize_roundtrip (Struct : FStructProperty) (R D : StructMemory)
    (Data : TArray uint8) (hrep : Representable Struct.Struct)
    (hnames : Struct.Struct.WellFormed)
    (hR : Conforms Struct.Struct.Properties R) (hD : Conforms Struct.Struct.Properties D) :
    (execDeSerializeStruct specEngine
        (execSerializeStruct specEngine (some Struct) R Data).out (some Struct) D).out = R := by
  obtain ⟨J, hJ, hback⟩ :=
    UStructToJsonObject_roundtrip Struct.Struct.Properties R D hrep hnames.2 hnames.1 hR hD
  have htext := execSerializeStruct_specEngine Struct R Data J hJ
  have hparse : TextToJsonObject (BytesToString specEngine
      (execSerializeStruct specEngine (some Struct) R Data).out) = some J := by
    rw [htext, TextToJsonObject_JsonObjectToText]
  rw [execDeSerializeStruct_specEngine _ Struct D J hparse]
  have := hback [] (fun _ _ => rfl)
  rw [List.nil_append] at this
  rw [this]

/-- C1, at the record of section 8 and at a record with a decimal, a
boolean, an array and a nested record: `name: "Alpha", score: 42` encodes to
the bytes of the text with exactly these two entries and decodes into a
zero-initialised record of the same shape as `name: "Alpha", score: 42`;
`nestedRecord` encodes to `nestedBuffer` and decodes into a zero-initialised
record as `nestedRecord`. -/
theorem deserialize_serialize_roundtrip_sample :
    (execSerializeStruct specEngine (some sampleStruct) sampleRecord []).out = sampleBuffer ∧
    (execDeSerializeStruct specEngine
        (execSerializeStruct specEngine (some sampleStruct) sampleRecord []).out
        (some sampleStruct) zeroRecord).out = sampleRecord ∧
    (execSerializeStruct specEngine (some nestedStruct) nestedRecord []).out = nestedBuffer ∧
    (execDeSerializeStruct specEngine
        (execSerializeStruct specEngine (some nestedStruct) nestedRecord []).out
        (some nestedStruct) (DefaultFields nestedStruct.Struct.Properties)).out = nestedRecord :=
  ⟨by decide,
   deserialize_serialize_roundtrip sampleStruct sampleRecord zeroRecord []
    (by simp [Representable, sampleStruct, MappedFields, Mapped])
    ⟨by decide, by simp [sampleStruct, DistinctFieldNames, DistinctNames]⟩
    (by simp [sampleStruct, sampleRecord, Conforms, HasType])
    (by simp [sampleStruct, zeroRecord, Conforms, HasType]),
   by decide,
   deserialize_serialize_roundtrip nestedStruct nestedRecord _ []
    (by simp [Representable, nestedStruct, MappedFields, Mapped])
    ⟨by decide, by simp [nestedStruct, DistinctFieldNames, DistinctNames]⟩
    (by simp [nestedStruct, nestedRecord, Conforms, HasType])
    (Conforms_DefaultFields _)⟩

/-- C2: on the specification engine the text-to-bytes transform is exactly
reversible: `BytesToString (StringToBytes s) = s` for every string `s`. -/
theorem BytesToString_StringToBytes (s : FString) :
    BytesToString specEngine (StringToBytes specEngine s) = s :=
  specEngine_bytes_roundtrip s

/-- C3, as stated, fails: decoding the truncated buffer, whose text does not
parse, surfaces no `MalformedInput` failure to the caller. -/
theorem decode_truncated_reports_nothing :
    TextToJsonObject (BytesToString specEngine truncatedBuffer) = none ∧
    (execDeSerializeStruct specEngine truncatedBuffer (some sampleStruct) otherRecord).error
      ≠ some ECodecError.MalformedInput :=
  ⟨rfl, by decide⟩

/-- C3, amended: decoding a buffer whose text does not parse surfaces no
failure to the caller and leaves every field of the destination record
unchanged, with or without a struct property.  That no failure is surfaced
holds on every engine (`execDeSerializeStruct_error`); that the record is
unchanged is shown on the specification engine. -/
theorem decode_malformed_keeps_record (Data : TArray uint8) (Struct : Option FStructProperty)
    (D : StructMemory) (hmal : TextToJsonObject (BytesToString specEngine Data) = none) :
    execDeSerializeStruct specEngine Data Struct D = { out := D, error := none } := by
  cases Struct with
  | none => rfl
  | some Struct =>
    have h2 : TextToJsonObject (specEngine.LoadFString Data "") = none := hmal
    simp [execDeSerializeStruct, BytesToString, specEngine] at h2 ⊢
    simp [h2, JsonObjectToFields_nil]

/-- C3, amended, at the truncated buffer and a record holding
`name: "Beta", score: 7`. -/
theorem decode_malformed_keeps_record_sample :
    execDeSerializeStruct specEngine truncatedBuffer (some sampleStruct) otherRecord
      = { out := otherRecord, error := none } :=
  decode_malformed_keeps_record truncatedBuffer (some sampleStruct) otherRecord rfl

/-- C4, as stated, fails: encoding a record with a field whose type has no
mapping surfaces no `UnsupportedFieldType` failure; the caller gets a buffer
back (here the empty one, the previous content `[1, 2, 3]` being overwritten)
as from any other call. -/
theorem encode_unmapped_reports_nothing :
    (∃ p ∈ unmappedStruct.Struct.Properties, p.Kind = EFieldType.Unmapped) ∧
    (execSerializeStruct specEngine (some unmappedStruct) unmappedRecord [1, 2, 3]).error
      ≠ some ECodecError.UnsupportedFieldType ∧
    (execSerializeStruct specEngine (some unmappedStruct) unmappedRecord [1, 2, 3]).out = [] :=
  ⟨⟨⟨"callback", EFieldType.Unmapped⟩, List.mem_cons_of_mem _ (List.mem_cons_self _ _), rfl⟩,
    by decide, by decide⟩

/-- C4, amended: for every engine and every record, one with a field without
mapping included, `execSerializeStruct` surfaces no failure to the caller; the
flag the converter returns is discarded, and the caller's buffer is
overwritten with the byte form of the text the converter left in the
initially empty string. -/
theorem encode_never_reports (E : Engine) (Struct : FStructProperty)
    (StructValue : StructMemory) (Data : TArray uint8) :
    (execSerializeStruct E (some Struct) StructValue Data).error = none ∧
    (execSerializeStruct E (some Struct) StructValue Data).out
      = StringToBytes E (E.UStructToJsonObjectString Struct.Struct StructValue "").2 :=
  ⟨rfl, rfl⟩

/-- C5: on the specification engine, for every destination record `D` and
every buffer whose text parses to an object without an entry for the field
`p` (the `i`-th of the descriptor), after `execDeSerializeStruct` the field
still holds its prior value, while every field that has an entry its type
accepts holds the value of that entry, as the field's type coerces it for a
field holding the prior value `v`. -/
theorem decode_keeps_absent_fields (Data : TArray uint8) (Struct : FStructProperty)
    (D : StructMemory) (J : FJsonObject) (i : Nat) (p : FProperty)
    (hparse : TextToJsonObject (BytesToString specEngine Data) = some J)
    (hp : Struct.Struct.Properties[i]? = some p) (habsent : J.lookup p.Name = none) :
    (execDeSerializeStruct specEngine Data (some Struct) D).out[i]? = D[i]? ∧
    ∀ (i2 : Nat) (p2 : FProperty) (j : FJsonValue) (v w : FieldValue),
      Struct.Struct.Properties[i2]? = some p2 → J.lookup p2.Name = some j →
      D[i2]? = some v → ImportField p2.Kind j v = some w →
      (execDeSerializeStruct specEngine Data (some Struct) D).out[i2]? = some w := by
  rw [execDeSerializeStruct_specEngine Data Struct D J hparse]
  exact ⟨JsonObjectToFields_absent J _ D i p hp habsent,
    fun i2 p2 j v w h1 h2 h3 h4 => JsonObjectToFields_present J _ D i2 p2 j v w h1 h2 h3 h4⟩

/-- C5, at the buffer of the text with the single entry `name="Alpha"` and a
destination holding `name: "Beta", score: 7`: `score` keeps 7 and `name`
becomes "Alpha". -/
theorem decode_keeps_absent_fields_sample :
    (execDeSerializeStruct specEngine nameOnlyBuffer (some sampleStruct) otherRecord).out[1]?
      = some (FieldValue.Integer 7) ∧
    (execDeSerializeStruct specEngine nameOnlyBuffer (some sampleStruct) otherRecord).out[0]?
      = some (FieldValue.Text "Alpha") :=
  have h := decode_keeps_absent_fields nameOnlyBuffer sampleStruct otherRecord
    [("name", FJsonValue.Text "Alpha")] 1 ⟨"score", EFieldType.Integer⟩
    rfl rfl rfl
  ⟨h.1, h.2 0 ⟨"name", EFieldType.Text⟩ (FJsonValue.Text "Alpha") (FieldValue.Text "Beta")
    (FieldValue.Text "Alpha") rfl rfl rfl rfl⟩

/-- C6, as stated, fails: without a struct property the buffer after the call
is the buffer before the call, so two calls on the same record end with
different buffers when the buffers differed before. -/
theorem encode_absent_descriptor_depends_on_buffer :
    (execSerializeStruct specEngine none sampleRecord [1]).out
      ≠ (execSerializeStruct specEngine none sampleRecord [2]).out := by
  decide

/-- C6, amended: for every engine and every record whose struct property is
present, the result of `execSerializeStruct` does not depend on the previous
content of the caller's buffer: any two calls on the unchanged record give
identical buffers, also when the second call gets the buffer the first one
wrote. -/
theorem encode_ignores_prior_buffer (E : Engine) (Struct : FStructProperty)
    (StructValue : StructMemory) (Data₁ Data₂ : TArray uint8) :
    execSerializeStruct E (some Struct) StructValue Data₁
      = execSerializeStruct E (some Struct) StructValue Data₂ ∧
    execSerializeStruct E (some Struct) StructValue
        (execSerializeStruct E (some Struct) StructValue Data₁).out
      = execSerializeStruct E (some Struct) StructValue Data₁ :=
  ⟨rfl, rfl⟩

/-- C7, as stated, fails: the buffer of the text with the entries
`name="Alpha"` and `extra=7` parses, and encoding the record decoded from it
gives a buffer whose text has the entries `name="Alpha"` and `score=0`: the
two mappings differ at `extra` and at `score`. -/
theorem reencode_differs_on_unknown_entry :
    TextToJsonObject (BytesToString specEngine extraEntryBuffer)
      = some [("name", FJsonValue.Text "Alpha"), ("extra", FJsonValue.Number 7 0)] ∧
    TextToJsonObject (BytesToString specEngine
      (execSerializeStruct specEngine (some sampleStruct)
        (execDeSerializeStruct specEngine extraEntryBuffer (some sampleStruct) zeroRecord).out
        []).out)
      = some [("name", FJsonValue.Text "Alpha"), ("score", FJsonValue.Number 0 0)] ∧
    ¬ SameMapping [("name", FJsonValue.Text "Alpha"), ("score", FJsonValue.Number 0 0)]
        [("name", FJsonValue.Text "Alpha"), ("extra", FJsonValue.Number 7 0)] := by
  refine ⟨rfl, rfl, ?_⟩
  intro h
  cases h with
  | object _ _ h1 _ =>
    have h2 := (h1 "extra").mp rfl
    simp [List.lookup] at h2

/-- C7, amended: on the specification engine, for every buffer whose text
parses to an object `J` that has, for every field of the record type, an
entry that fits the field's type (for an array every item fits the element
type; for a nested record the entry is an object that again has a fitting
entry for every field and no entry under another name), and no entry under
another name, encoding the record obtained by decoding the buffer into a
record of the type yields a buffer whose text parses to an object with the
same field name to value mapping as `J`, at every level of nesting. -/
theorem reencode_same_mapping (Data Data0 : TArray uint8) (Struct : FStructProperty)
    (D : StructMemory) (J : FJsonObject)
    (hparse : TextToJsonObject (BytesToString specEngine Data) = some J)
    (hD : Conforms Struct.Struct.Properties D)
    (hall : FitsFields Struct.Struct.Properties J)
    (hknown : ∀ k, k ∉ Struct.Struct.Names → J.lookup k = none) :
    ∃ J2, TextToJsonObject (BytesToString specEngine
        (execSerializeStruct specEngine (some Struct)
          (execDeSerializeStruct specEngine Data (some Struct) D).out Data0).out) = some J2 ∧
      SameMapping J2 J := by
  have hfit : Fits (EFieldType.Struct Struct.Struct.Properties) (FJsonValue.Object J) := by
    simp only [Fits]
    exact ⟨hall, hknown⟩
  have hd : HasType (EFieldType.Struct Struct.Struct.Properties) (FieldValue.Struct D) := by
    simpa only [HasType] using hD
  obtain ⟨w, j2, h1, _, h3, h4⟩ := ExportField_ImportField _ _ _ hfit hd
  simp only [ImportField, Option.some.injEq] at h1
  subst h1
  simp only [ExportField, Option.map_eq_some'] at h3
  obtain ⟨J2, hJ2, rfl⟩ := h3
  rw [execDeSerializeStruct_specEngine Data Struct D J hparse]
  exact ⟨J2, by
    rw [execSerializeStruct_specEngine Struct _ Data0 J2 hJ2, TextToJsonObject_JsonObjectToText],
    h4⟩

set_option maxRecDepth 100000 in
/-- C7, amended, at `spacedBuffer`, whose text has blanks, an exponent, an
escaped character, an array and a nested record: decoding it into a
zero-initialised record of type `nestedStruct` and encoding the result gives
a buffer whose text parses to an object with the mapping of `spacedObject`. -/
theorem reencode_same_mapping_sample :
    ∃ J2, TextToJsonObject (BytesToString specEngine
        (execSerializeStruct specEngine (some nestedStruct)
          (execDeSerializeStruct specEngine spacedBuffer (some nestedStruct)
            (DefaultFields nestedStruct.Struct.Properties)).out
          []).out) = some J2 ∧
      SameMapping J2 spacedObject :=
  reencode_same_mapping spacedBuffer [] nestedStruct _ spacedObject rfl
    (Conforms_DefaultFields _)
    (by
      simp only [nestedStruct, FitsFields, and_true]
      refine ⟨⟨_, rfl, ?_⟩, ⟨_, rfl, ?_⟩, ⟨_, rfl, ?_⟩, ⟨_, rfl, ?_⟩, ⟨_, rfl, ?_⟩, ⟨_, rfl, ?_⟩⟩
      · simp [Fits]
      · simp [Fits]
      · simp [Fits]
      · simp [Fits]
      · simp [Fits]
      · simp only [Fits, FitsFields, and_true]
        refine ⟨⟨⟨_, rfl, by simp [Fits]⟩, ⟨_, rfl, by simp [Fits]⟩⟩, ?_⟩
        intro k hk
        apply lookup_none_of_not_mem
        intro hmem
        apply hk
        simp only [List.map_cons, List.map_nil, List.mem_cons, List.mem_singleton,
          List.not_mem_nil, or_false] at hmem ⊢
        tauto)
    (by
      intro k hk
      apply lookup_none_of_not_mem
      intro hmem
      apply hk
      simp only [UStruct.Names, nestedStruct, spacedObject, List.map_cons, List.map_nil,
        List.mem_cons, List.mem_singleton, List.not_mem_nil, or_false] at hmem ⊢
      tauto)

/-- C8: for every engine, when the struct property of the record argument is
absent `execSerializeStruct` returns with the caller's buffer exactly as it
was and signals no failure; the native body `SerializeStruct` behind the
thunk never touches the buffer either. -/
theorem encode_absent_descriptor_keeps_buffer (E : Engine) (StructValue : StructMemory)
    (Data : TArray uint8) (Struct : Option UStruct) :
    execSerializeStruct E none StructValue Data = { out := Data, error := none } ∧
    SerializeStruct Struct Data = Data :=
  ⟨rfl, rfl⟩

/-- C9: `GetReplayLength`, read off the world state: when the world has a
demo driver that is recording the result is the driver's accumulated record
time; otherwise, when the world has a demo driver that is playing, it is the
driver's demo total time; in every other case (no world, no driver, or a
driver neither recording nor playing) it is 0. -/
theorem GetReplayLength_eq (WorldContextObject : UObject) :
    GetReplayLength WorldContextObject =
      match WorldContextObject.World with
      | some World =>
        match World.DemoNetDriver with
        | some DemoDriver =>
          if DemoDriver.bIsRecording = true then DemoDriver.AccumulatedRecordTime
          else if DemoDriver.bIsPlaying = true then DemoDriver.DemoTotalTime
          else 0
        | none => 0
      | none => 0 := by
  rcases WorldContextObject with ⟨_ | ⟨_ | Driver⟩⟩
  · rfl
  · rfl
  · rfl

/-- C10: `AddEventToActiveReplay`, read off the world state: when the world
has a demo driver that is recording it returns true and hands exactly one
`AddOrUpdateEvent(EventId, Group, Metadata, Data)` to that driver, the world
being otherwise untouched; in every other case (no world, no driver, or a
driver that is not recording) it returns false and the world, with the events
of its driver, is left as it was. -/
theorem AddEventToActiveReplay_eq (WorldContextObject : UObject)
    (EventId Group Metadata : FString) (Data : TArray uint8) :
    AddEventToActiveReplay WorldContextObject EventId Group Metadata Data =
      match WorldContextObject.World with
      | some World =>
        match World.DemoNetDriver with
        | some Driver =>
          if Driver.bIsRecording = true then
            (true, { WorldContextObject with
              World := some { World with
                DemoNetDriver := some { Driver with
                  AddedEvents :=
                    Driver.AddedEvents ++ [⟨EventId, Group, Metadata, Data⟩] } } })
          else (false, WorldContextObject)
        | none => (false, WorldContextObject)
      | none => (false, WorldContextObject) := by
  rcases WorldContextObject with ⟨_ | ⟨_ | Driver⟩⟩
  · rfl
  · rfl
  · rcases Driver with ⟨_ | _, bIsPlaying, AccumulatedRecordTime, DemoTotalTime, AddedEvents,
      ActiveReplayName, ServerConnection⟩
    · rfl
    · rfl

/-- C11: `IsReplayPlaybackPaused` returns true if and only if the world has a
demo driver that is playing and world settings whose pauser player state is
set; in particular it is false whenever no replay is playing, that is when
there is no world, no demo driver, or the driver is not playing. -/
theorem IsReplayPlaybackPaused_iff (WorldContextObject : UObject) :
    (IsReplayPlaybackPaused WorldContextObject = true ↔
      ∃ World DemoDriver WorldSettings PlayerState,
        WorldContextObject.World = some World ∧
        World.DemoNetDriver = some DemoDriver ∧
        DemoDriver.bIsPlaying = true ∧
        World.WorldSettings = some WorldSettings ∧
        WorldSettings.PauserPlayerState = some PlayerState) ∧
    ((¬ ∃ World DemoDriver,
        WorldContextObject.World = some World ∧
        World.DemoNetDriver = some DemoDriver ∧
        DemoDriver.bIsPlaying = true) →
      IsReplayPlaybackPaused WorldContextObject = false) := by
  rcases WorldContextObject with ⟨_ | ⟨_ | Driver, _ | ⟨_ | PlayerState⟩, b, ReplayPC⟩⟩ <;>
    simp [IsReplayPlaybackPaused, IsPlayingReplay, GetDemoDriver,
      GetWorldFromContextObjectChecked, UWorld.AsObject]

/-- What `PausePlayback` does where the source dereferences no null pointer.
In a world with world settings and a demo driver whose server connection's
player controller has a player state, it returns normally and the pauser
player state is that player state afterwards; when the driver is also
playing, `IsReplayPlaybackPaused` returns true afterwards.  When the world
has no demo driver, or the player controller of the driver's server
connection exists and has no player state, the world, and with it the
pauser, is left as it was. -/
theorem PausePlayback_pauses (WorldContextObject : UObject) (World : UWorld)
    (WorldSettings : AWorldSettings)
    (hWorld : WorldContextObject.World = some World)
    (hSettings : World.WorldSettings = some WorldSettings) :
    (∀ (DemoDriver : UDemoNetDriver) (ServerConnection : UNetConnection)
        (PlayerController : APlayerController) (PlayerState : APlayerState),
      World.DemoNetDriver = some DemoDriver →
      DemoDriver.ServerConnection = some ServerConnection →
      ServerConnection.PlayerController = some PlayerController →
      PlayerController.PlayerState = some PlayerState →
      PausePlayback WorldContextObject = some
        { WorldContextObject with
          World := some { World with
            bIsCameraMoveableWhenPaused := true
            WorldSettings := some { WorldSettings with PauserPlayerState := some PlayerState }
            ReplayPC := World.ReplayPC.map fun ReplayPC => ReplayPC.OnTogglePause true } } ∧
      (DemoDriver.bIsPlaying = true →
        IsReplayPlaybackPaused
          { WorldContextObject with
            World := some { World with
              bIsCameraMoveableWhenPaused := true
              WorldSettings := some { WorldSettings with PauserPlayerState := some PlayerState }
              ReplayPC := World.ReplayPC.map fun ReplayPC => ReplayPC.OnTogglePause true } }
          = true)) ∧
    (World.DemoNetDriver = none →
      PausePlayback WorldContextObject = some WorldContextObject) ∧
    (∀ (DemoDriver : UDemoNetDriver) (ServerConnection : UNetConnection)
        (PlayerController : APlayerController),
      World.DemoNetDriver = some DemoDriver →
      DemoDriver.ServerConnection = some ServerConnection →
      ServerConnection.PlayerController = some PlayerController →
      PlayerController.PlayerState = none →
      PausePlayback WorldContextObject = some WorldContextObject) := by
  rcases WorldContextObject with ⟨W⟩
  simp only at hWorld
  subst hWorld
  rcases World with ⟨Driver, WS, b, ReplayPC⟩
  simp only at hSettings
  subst hSettings
  refine ⟨?_, ?_, ?_⟩
  · intro DemoDriver ServerConnection PlayerController PlayerState hd hc hpc hps
    simp only at hd
    subst hd
    refine ⟨?_, ?_⟩
    · simp [PausePlayback, GetWorldFromContextObjectChecked, GetDemoDriver, UWorld.AsObject,
        hc, hpc, hps, AWorldSettings.SetPauserPlayerState]
    · intro hp
      simp [IsReplayPlaybackPaused, IsPlayingReplay, GetWorldFromContextObjectChecked,
        GetDemoDriver, UWorld.AsObject, hp]
  · intro hd
    simp only at hd
    subst hd
    rfl
  · intro DemoDriver ServerConnection PlayerController hd hc hpc hps
    simp only at hd
    subst hd
    simp [PausePlayback, GetWorldFromContextObjectChecked, GetDemoDriver, UWorld.AsObject,
      hc, hpc, hps]

/-- `PausePlayback` at a world whose demo driver is playing over a server
connection whose player controller has player state 1, and whose world
settings have no pauser: the pauser is player state 1 afterwards and
`IsReplayPlaybackPaused` turns from false to true. -/
theorem PausePlayback_pauses_sample :
    IsReplayPlaybackPaused playingObject = false ∧
    ∃ After WorldAfter SettingsAfter,
      PausePlayback playingObject = some After ∧
      After.World = some WorldAfter ∧
      WorldAfter.WorldSettings = some SettingsAfter ∧
      SettingsAfter.PauserPlayerState = some (APlayerState.mk 1) ∧
      IsReplayPlaybackPaused After = true :=
  have h := (PausePlayback_pauses playingObject _ (AWorldSettings.mk none) rfl rfl).1
    _ (UNetConnection.mk (some (APlayerController.mk (some (APlayerState.mk 1)))))
    (APlayerController.mk (some (APlayerState.mk 1))) (APlayerState.mk 1)
    rfl rfl rfl rfl
  ⟨by decide, _, _, _, h.1, rfl, rfl, rfl, h.2 rfl⟩

/-- Where the source dereferences a null pointer: in a world with world
settings and a demo driver, `PausePlayback` does not return when the driver
has no server connection, or the server connection has no player
controller. -/
theorem PausePlayback_null_dereference (WorldContextObject : UObject) (World : UWorld)
    (WorldSettings : AWorldSettings) (DemoDriver : UDemoNetDriver)
    (hWorld : WorldContextObject.World = some World)
    (hSettings : World.WorldSettings = some WorldSettings)
    (hDriver : World.DemoNetDriver = some DemoDriver)
    (hNull : DemoDriver.ServerConnection = none ∨
      ∃ ServerConnection, DemoDriver.ServerConnection = some ServerConnection ∧
        ServerConnection.PlayerController = none) :
    PausePlayback WorldContextObject = none := by
  rcases WorldContextObject with ⟨W⟩
  simp only at hWorld
  subst hWorld
  rcases hNull with hc | ⟨ServerConnection, hc, hpc⟩
  · simp [PausePlayback, GetWorldFromContextObjectChecked, GetDemoDriver, UWorld.AsObject,
      hSettings, hDriver, hc]
  · simp [PausePlayback, GetWorldFromContextObjectChecked, GetDemoDriver, UWorld.AsObject,
      hSettings, hDriver, hc, hpc]

/-- C12, failing input: the world of `recordingObject` has world settings
(without pauser) and a demo driver that is recording and has no server
connection, hence no player state.  The claim has `PausePlayback` return with
the pauser left unchanged; the source evaluates
`DemoDriver->ServerConnection->PlayerController->PlayerState` on the null
`ServerConnection` and the call does not return. -/
theorem PausePlayback_recording_driver :
    (∃ World WorldSettings DemoDriver,
      recordingObject.World = some World ∧
      World.WorldSettings = some WorldSettings ∧
      WorldSettings.PauserPlayerState = none ∧
      World.DemoNetDriver = some DemoDriver ∧
      DemoDriver.bIsRecording = true ∧
      DemoDriver.ServerConnection = none) ∧
    PausePlayback recordingObject = none ∧
    PausePlayback recordingObject ≠ some recordingObject :=
  ⟨⟨_, _, _, rfl, rfl, rfl, rfl, rfl, rfl⟩, by decide, by decide⟩

/-- C13: `GetActiveReplayEvents`, read off the world state: when the world has
a demo driver that is playing and not recording and the factory returned a
streamer, the body makes exactly one call, the event enumeration on the
streamer for the driver's active replay name (which is what
`GetActiveReplayName` returns there) with the given group and user index and
the delegate bound to the completion callback; in every other state (no
world, no driver, a driver that is recording or not playing, or no streamer)
it makes no call at all.  On no path does the body execute the completion
callback. -/
theorem GetActiveReplayEvents_eq (EnumerateStreamsPtr : Option INetworkReplayStreamer)
    (WorldContextObject : UObject) (Group : FString) (UserIndex : Int)
    (OnRequestEventsComplete : FOnRequestEventsComplete) :
    GetActiveReplayEvents EnumerateStreamsPtr WorldContextObject Group UserIndex
        OnRequestEventsComplete =
      (match WorldContextObject.World with
      | some World =>
        match World.DemoNetDriver with
        | some DemoDriver =>
          if DemoDriver.bIsPlaying = true ∧ DemoDriver.bIsRecording = false ∧
              EnumerateStreamsPtr.isSome = true then
            [FReplayCall.EnumerateEvents DemoDriver.ActiveReplayName Group UserIndex
              OnRequestEventsComplete]
          else []
        | none => []
      | none => []) ∧
    (∀ World DemoDriver, WorldContextObject.World = some World →
      World.DemoNetDriver = some DemoDriver →
      GetActiveReplayName WorldContextObject = DemoDriver.ActiveReplayName) ∧
    ∀ (Callback : FOnRequestEventsComplete) (ReplayEvents : TArray FReplayEvent),
      FReplayCall.Execute Callback ReplayEvents ∉
        GetActiveReplayEvents EnumerateStreamsPtr WorldContextObject Group UserIndex
          OnRequestEventsComplete := by
  refine ⟨?_, ?_, ?_⟩
  · rcases WorldContextObject with ⟨_ | ⟨_ | Driver, WS, b, ReplayPC⟩⟩
    · rfl
    · rfl
    · rcases Driver with ⟨_ | _, _ | _, AccumulatedRecordTime, DemoTotalTime, AddedEvents,
        ActiveReplayName, ServerConnection⟩ <;>
        cases EnumerateStreamsPtr <;> rfl
  · intro World DemoDriver hW hD
    rcases WorldContextObject with ⟨W⟩
    simp only at hW
    subst hW
    simp [GetActiveReplayName, GetDemoDriver, GetWorldFromContextObjectChecked,
      UWorld.AsObject, hD]
  · intro Callback ReplayEvents
    unfold GetActiveReplayEvents
    cases IsRecordingReplay WorldContextObject <;>
      cases IsPlayingReplay WorldContextObject <;>
      cases EnumerateStreamsPtr <;> simp

end UReplaySystemBPLibrary
